import Mathlib

/-!
Verification of the Agile EV Charge Planner core
(custom_components/ev_charge_planner/planner/core.py and planner/normalise.py).

Modelling conventions for the shallow embedding:
- Python aware `datetime` values are modelled by `PyDateTime`: wall-clock
  minutes since an epoch together with an optional fixed UTC offset in
  minutes (`none` models a timezone-naive datetime).  Python compares aware
  datetimes by absolute instant (`wall - offset`); `timedelta` arithmetic
  acts on the wall clock.
- Rate-slot timestamps inside the planner are modelled directly by their
  absolute instant (an `Int` of minutes), which is exactly how aware
  datetimes behave as dict keys and in comparisons.  The planner's data
  model declares slot starts timezone-aware.
- Python `float` arithmetic is modelled by exact rational arithmetic `ℚ`.
- Python dicts keyed by datetimes are modelled by association lists with
  insert-or-replace update, preserving insertion order of first occurrence.
- A Python function that can raise is modelled with `Except String`.
-/

namespace EVPlanner

/-- Model of a Python `datetime`: wall-clock minutes plus optional UTC offset
in minutes; `off = none` models a naive datetime. -/
structure PyDateTime where
  wall : Int
  off : Option Int
deriving DecidableEq, Repr

/-- Absolute instant of a datetime in minutes (meaningful for aware values). -/
def instant (d : PyDateTime) : Int :=
  d.wall - d.off.getD 0

/-- Model of core.py `_is_tz_aware`: the datetime carries a utc offset. -/
def _is_tz_aware (d : PyDateTime) : Bool :=
  d.off.isSome

/-- Python `dt + timedelta(minutes = m)`: wall-clock shift, same tzinfo. -/
def dt_add (d : PyDateTime) (m : Int) : PyDateTime :=
  ⟨d.wall + m, d.off⟩

/-- Model of core.py `RateSlot`: start is a timezone-aware datetime, modelled
by its absolute instant in minutes; the price is p/kWh. -/
structure RateSlot where
  start : Int
  price_p_per_kwh : ℚ
deriving DecidableEq, Repr

/-- Sort key relation used by every `sorted(..., key=lambda s: s.start)`. -/
def slotLE (a b : RateSlot) : Prop :=
  a.start ≤ b.start

instance : DecidableRel slotLE :=
  fun a b => inferInstanceAs (Decidable (a.start ≤ b.start))

instance : IsTotal RateSlot slotLE :=
  ⟨fun a b => le_total a.start b.start⟩

instance : IsTrans RateSlot slotLE :=
  ⟨fun _ _ _ h1 h2 => le_trans h1 h2⟩

/-- Python `int(q)` truncates toward zero; `Int.tdiv` is T-division. -/
def int_trunc (q : ℚ) : Int :=
  Int.tdiv q.num (q.den : Int)

/-- Model of core.py `_ceil_slots`. -/
def _ceil_slots (hours : ℚ) (slot_hours : ℚ) : Nat :=
  if hours ≤ 0 then 0
  else
    let slots := int_trunc (hours / slot_hours)
    if (slots : ℚ) * slot_hours < hours then (slots + 1).toNat else slots.toNat

/-- Model of const.py `DEFAULT_CHARGING_EFFICIENCY`. -/
def DEFAULT_CHARGING_EFFICIENCY : ℚ := 9 / 10

/-- Model of core.py `_night_window_start`:
`datetime.combine(now.date(), time(17, 0), tzinfo=now.tzinfo)`.
Python `date()` is the wall-clock day, hence floor division of wall minutes. -/
def _night_window_start (now : PyDateTime) : PyDateTime :=
  ⟨(Int.fdiv now.wall 1440) * 1440 + 17 * 60, now.off⟩

/-- Model of core.py `_night_window_end`: next day at 07:00, same tzinfo. -/
def _night_window_end (window_start : PyDateTime) : PyDateTime :=
  ⟨(Int.fdiv window_start.wall 1440 + 1) * 1440 + 7 * 60, window_start.off⟩

/-- Model of core.py `_filter_slots_in_range`: keep slots with
`start <= s.start < end` (aware-datetime comparison is by instant), then sort
by start. -/
def _filter_slots_in_range (slots : List RateSlot) (s e : PyDateTime) :
    List RateSlot :=
  List.insertionSort slotLE
    (slots.filter (fun x => decide (instant s ≤ x.start) && decide (x.start < instant e)))

/-- Python dict assignment `m[k] = v` on an insertion-ordered association
list: replace the existing entry for `k`, else append. -/
def dict_set (m : List (Int × RateSlot)) (k : Int) (v : RateSlot) :
    List (Int × RateSlot) :=
  if (m.map Prod.fst).contains k then
    m.map (fun p => if p.1 = k then (k, v) else p)
  else m ++ [(k, v)]

/-- Fold a slot list into a datetime-keyed dict, as in
`for s in slots: out[s.start] = s`. -/
def dict_from (init : List (Int × RateSlot)) (slots : List RateSlot) :
    List (Int × RateSlot) :=
  slots.foldl (fun m s => dict_set m s.start s) init

/-- Model of core.py `_merge_confirmed_over_forecast` (identical to
normalise.py `merge_confirmed_over_forecast`): dict seeded from forecast,
overwritten by the confirmed map's entries, values sorted by start. -/
def _merge_confirmed_over_forecast (confirmed forecast : List RateSlot) :
    List RateSlot :=
  let conf_map := dict_from [] confirmed
  let out := dict_from (dict_from [] forecast) (conf_map.map Prod.snd)
  List.insertionSort slotLE (out.map Prod.snd)

/-- Boolean check that consecutive slots are exactly 30 minutes apart, as the
inner `j` loop of `_contiguous_block_cheapest` checks
`slots[i + j].start == slots[i + j - 1].start + timedelta(minutes=30)`. -/
def chain30 : List RateSlot → Bool
  | [] => true
  | [_] => true
  | a :: b :: t => (b.start == a.start + 30) && chain30 (b :: t)

/-- The candidate window of `n` slots beginning at index `i`. -/
def window (slots : List RateSlot) (i n : Nat) : List RateSlot :=
  (slots.drop i).take n

/-- Price total of the candidate window, the `total` accumulator. -/
def window_total (slots : List RateSlot) (i n : Nat) : ℚ :=
  ((window slots i n).map RateSlot.price_p_per_kwh).sum

/-- One iteration of the `for i in range(...)` scan of
`_contiguous_block_cheapest`: skip windows bridging a gap, otherwise update
`best = (total_cost, start_idx)` on strict improvement. -/
def loop_step (slots : List RateSlot) (n : Nat) (best : Option (ℚ × Nat))
    (i : Nat) : Option (ℚ × Nat) :=
  if chain30 (window slots i n) then
    match best with
    | none => some (window_total slots i n, i)
    | some b =>
      if window_total slots i n < b.1 then some (window_total slots i n, i)
      else best
  else best

/-- The scan of `_contiguous_block_cheapest` over all window start indices. -/
def best_loop (slots : List RateSlot) (n : Nat) : Option (ℚ × Nat) :=
  (List.range (slots.length - n + 1)).foldl (loop_step slots n) none

/-- Model of core.py `_contiguous_block_cheapest`.  Returns
`(start, end, avg)` of the cheapest strictly contiguous window of
`needed_slots` slots, or `none`.  The `[]` inner match arm is unreachable
(the winning index is always in range). -/
def _contiguous_block_cheapest (slots : List RateSlot) (needed_slots : Nat) :
    Option (Int × Int × ℚ) :=
  if needed_slots = 0 then none
  else if slots.length < needed_slots then none
  else
    match best_loop slots needed_slots with
    | none => none
    | some (total, i) =>
      match window slots i needed_slots with
      | [] => none
      | f :: t =>
        some (f.start, ((f :: t).getLast (List.cons_ne_nil f t)).start + 30,
          total / (needed_slots : ℚ))

/-- Model of core.py `_energy_kwh_from_soc_pct`. -/
def _energy_kwh_from_soc_pct (battery_kwh soc_pct : ℚ) : ℚ :=
  max 0 (battery_kwh * (soc_pct / 100))

/-- Model of core.py `PlannerInputs`. -/
structure PlannerInputs where
  now : PyDateTime
  current_soc_pct : ℚ
  daily_usage_pct : ℚ
  battery_capacity_kwh : ℚ
  charger_power_kw : ℚ
  min_morning_soc_pct : ℚ
  soc_buffer_pct : ℚ
  full_tomorrow_enabled : Bool
  full_tomorrow_target_soc_pct : ℚ
  deadline_enabled : Bool
  full_by : Option PyDateTime
  deadline_target_soc_pct : ℚ
deriving DecidableEq, Repr

/-- Model of core.py `TonightPlan`; the source field name `end` is written
`end_` because `end` is a Lean keyword. -/
structure TonightPlan where
  state : String
  start : Option Int
  end_ : Option Int
  duration_hours : ℚ
  reason : String
deriving DecidableEq, Repr

/-- Model of core.py `DeadlineStatus`. -/
structure DeadlineStatus where
  status : String
  summary : String
deriving DecidableEq, Repr

/-- Model of core.py `ChargeMetrics`. -/
structure ChargeMetrics where
  needed_soc_pct : ℚ
  needed_energy_kwh : ℚ
  needed_hours : ℚ
  needed_slots : Nat
deriving DecidableEq, Repr

/-- Model of core.py `PlannerOutputs`. -/
structure PlannerOutputs where
  tonight : TonightPlan
  next_charge : Option TonightPlan
  deadline : DeadlineStatus
  metrics : ChargeMetrics
deriving DecidableEq, Repr

/-- Model of core.py `_required_soc_for_tomorrow`. -/
def _required_soc_for_tomorrow (inputs : PlannerInputs) : ℚ :=
  let floor := inputs.min_morning_soc_pct + inputs.soc_buffer_pct
  if inputs.full_tomorrow_enabled then inputs.full_tomorrow_target_soc_pct
  else floor

/-- Model of core.py `_projected_soc_tomorrow_morning`. -/
def _projected_soc_tomorrow_morning (inputs : PlannerInputs) : ℚ :=
  max 0 (inputs.current_soc_pct - inputs.daily_usage_pct)

/-- Model of core.py `_needed_charge_soc_pct_for_tomorrow`. -/
def _needed_charge_soc_pct_for_tomorrow (inputs : PlannerInputs) : ℚ :=
  max 0 (_required_soc_for_tomorrow inputs - _projected_soc_tomorrow_morning inputs)

/-- Model of core.py `_needed_energy_kwh`. -/
def _needed_energy_kwh (inputs : PlannerInputs) (needed_soc_pct : ℚ) : ℚ :=
  _energy_kwh_from_soc_pct inputs.battery_capacity_kwh needed_soc_pct

/-- Model of core.py `_hours_needed_for_energy`; the efficiency default
argument is passed explicitly by callers. -/
def _hours_needed_for_energy (inputs : PlannerInputs) (energy_kwh efficiency : ℚ) : ℚ :=
  if inputs.charger_power_kw ≤ 0 then 0
  else
    let wall_kwh := energy_kwh / efficiency
    wall_kwh / inputs.charger_power_kw

/-- Model of core.py `_slots_needed_for_energy`. -/
def _slots_needed_for_energy (inputs : PlannerInputs) (energy_kwh : ℚ) : Nat :=
  _ceil_slots (_hours_needed_for_energy inputs energy_kwh DEFAULT_CHARGING_EFFICIENCY) (1 / 2)

/-- Model of core.py `_build_night_windows`: triples `(nid, start, end)` with
`nid = start`, one per day offset. -/
def _build_night_windows (now : PyDateTime) (days : Nat) :
    List (PyDateTime × PyDateTime × PyDateTime) :=
  (List.range days).map (fun d =>
    let start := dt_add (_night_window_start now) (1440 * (d : Int))
    (start, start, _night_window_end start))

/-- Python `night_slots.get(nid, [])` on the nid-keyed dict (keys are
instants; window nids are pairwise distinct instants). -/
def night_slots_get (ns : List (Int × List RateSlot)) (k : Int) : List RateSlot :=
  ((ns.find? (fun p => p.1 == k)).map Prod.snd).getD []

/-- The dict `deadline_plan_blocks`: nid instant to `(start, end, slots)`. -/
abbrev Blocks := List (Int × (Int × Int × Nat))

/-- Python `nid in deadline_plan_blocks` / `deadline_plan_blocks[nid]`. -/
def blocks_get (b : Blocks) (k : Int) : Option (Int × Int × Nat) :=
  (b.find? (fun p => p.1 == k)).map Prod.snd

/-- One entry of `night_candidates`: the source tuple
`(avg, nid, b_start, b_end, s_needed)` with the nid as an instant. -/
structure NightCand where
  avg : ℚ
  nid : Int
  b_start : Int
  b_end : Int
  s_needed : Nat
deriving DecidableEq, Repr

/-- Sort key of `night_candidates.sort(key=lambda x: x[0])`. -/
def candLE (a b : NightCand) : Prop :=
  a.avg ≤ b.avg

instance : DecidableRel candLE :=
  fun a b => inferInstanceAs (Decidable (a.avg ≤ b.avg))

instance : IsTotal NightCand candLE :=
  ⟨fun a b => le_total a.avg b.avg⟩

instance : IsTrans NightCand candLE :=
  ⟨fun _ _ _ h1 h2 => le_trans h1 h2⟩

/-- One entry of `best_by_night`: the source tuple `(avg, nid, s, e)`. -/
structure OppCand where
  avg : ℚ
  nid : Int
  s : Int
  e : Int
deriving DecidableEq, Repr

/-- Sort key of `best_by_night.sort(key=lambda x: x[0])`. -/
def oppLE (a b : OppCand) : Prop :=
  a.avg ≤ b.avg

instance : DecidableRel oppLE :=
  fun a b => inferInstanceAs (Decidable (a.avg ≤ b.avg))

instance : IsTotal OppCand oppLE :=
  ⟨fun a b => le_total a.avg b.avg⟩

instance : IsTrans OppCand oppLE :=
  ⟨fun _ _ _ h1 h2 => le_trans h1 h2⟩

/-- Sort key relation for `sorted(blocks.keys())`. -/
def intLE (a b : Int) : Prop :=
  a ≤ b

instance : DecidableRel intLE :=
  fun a b => inferInstanceAs (Decidable (a ≤ b))

instance : IsTotal Int intLE :=
  ⟨fun a b => le_total a b⟩

instance : IsTrans Int intLE :=
  ⟨fun _ _ _ h1 h2 => le_trans h1 h2⟩

/-- Model of the nested `_format_deadline_summary`.  The Python `strftime`
weekday/clock rendering of datetimes is abstracted to rendering the numeric
instants; no claim depends on the formatted text. -/
def _format_deadline_summary (blocks : Blocks) (full_by : PyDateTime)
    (at_risk : Bool) : String :=
  if blocks.isEmpty then "No charging blocks planned before deadline."
  else
    let parts := (List.insertionSort intLE (blocks.map Prod.fst)).map (fun nid =>
      match blocks_get blocks nid with
      | none => ""
      | some (s, e, slots) =>
        toString ((slots : ℚ) * (1 / 2)) ++ "h on " ++ toString s ++ "-" ++ toString e)
    let status_txt := if at_risk then "AT RISK" else "ON TRACK"
    status_txt ++ ": " ++ (String.intercalate ", " parts) ++ ". Full by " ++
      toString (instant full_by) ++ "."

/-- Model of the closure `_compute_deadline_plan` in core.py `plan_charging`.
The Python closure mutates the outer `deadline_plan_blocks` dict; the model
returns the status together with that dict. -/
def _compute_deadline_plan (inputs : PlannerInputs)
    (windows : List (PyDateTime × PyDateTime × PyDateTime))
    (night_slots : List (Int × List RateSlot)) : DeadlineStatus × Blocks :=
  match inputs.deadline_enabled, inputs.full_by with
  | false, _ => (⟨"DISABLED", "Deadline mode disabled."⟩, [])
  | true, none => (⟨"DISABLED", "Deadline mode disabled."⟩, [])
  | true, some full_by =>
    if inputs.deadline_target_soc_pct ≤ 0 then
      (⟨"DISABLED", "Deadline target SoC invalid."⟩, [])
    else if instant full_by ≤ instant inputs.now then
      (⟨"AT_RISK", "Deadline is in the past or now."⟩, [])
    else
      let eligible_windows := windows.filter (fun w => decide (instant w.2.1 < instant full_by))
      if eligible_windows.isEmpty then
        (⟨"AT_RISK", "No eligible nights before deadline."⟩, [])
      else
        let needed_soc := max 0 (inputs.deadline_target_soc_pct - inputs.current_soc_pct)
        let needed_kwh := _needed_energy_kwh inputs needed_soc
        let total_needed_slots := _slots_needed_for_energy inputs needed_kwh
        if total_needed_slots = 0 then
          (⟨"ON_TRACK", "Already at or above deadline target SoC."⟩, [])
        else
          let night_candidates := eligible_windows.flatMap (fun w =>
            let slots := night_slots_get night_slots (instant w.1)
            if slots.isEmpty then []
            else
              let max_slots := min 28 slots.length
              ((List.range (max_slots / 2)).map (fun j => 2 * j + 2)).filterMap
                (fun s_needed =>
                  match _contiguous_block_cheapest slots s_needed with
                  | none => none
                  | some (b_start, b_end, avg) =>
                    some (⟨avg, instant w.1, b_start, b_end, s_needed⟩ : NightCand)))
          if night_candidates.isEmpty then
            (⟨"AT_RISK", "No rate coverage for eligible nights before deadline."⟩, [])
          else
            let sorted_cands := List.insertionSort candLE night_candidates
            let final := sorted_cands.foldl
              (fun (st : Blocks × Nat) c =>
                if st.2 = 0 then st
                else if (st.1.map Prod.fst).contains c.nid then st
                else
                  let take := min c.s_needed st.2
                  let slots := night_slots_get night_slots c.nid
                  match _contiguous_block_cheapest slots take with
                  | none => st
                  | some (s2, e2, _) => (st.1 ++ [(c.nid, (s2, e2, take))], st.2 - take))
              ([], total_needed_slots)
            if 0 < final.2 then
              (⟨"AT_RISK", _format_deadline_summary final.1 full_by true⟩, final.1)
            else
              (⟨"ON_TRACK", _format_deadline_summary final.1 full_by false⟩, final.1)

/-- The `windows` list of `plan_charging` (`horizon_nights = 7`). -/
def planner_windows (inputs : PlannerInputs) :
    List (PyDateTime × PyDateTime × PyDateTime) :=
  _build_night_windows inputs.now 7

/-- The `night_slots` dict of `plan_charging`. -/
def night_slots_of (confirmed forecast : List RateSlot) (inputs : PlannerInputs) :
    List (Int × List RateSlot) :=
  (planner_windows inputs).map (fun w =>
    (instant w.1, _filter_slots_in_range (_merge_confirmed_over_forecast confirmed forecast) w.2.1 w.2.2))

/-- Placeholder window triple for the (never reached) empty-windows head. -/
def dummy_window : PyDateTime × PyDateTime × PyDateTime :=
  (⟨0, none⟩, ⟨0, none⟩, ⟨0, none⟩)

/-- The `tonight_id` of `plan_charging`: `windows[0]` nid as an instant. -/
def tonight_id_of (inputs : PlannerInputs) : Int :=
  instant ((planner_windows inputs).headD dummy_window).1

/-- The `tonight_slots` list of `plan_charging`. -/
def tonight_slots_of (confirmed forecast : List RateSlot) (inputs : PlannerInputs) :
    List RateSlot :=
  night_slots_get (night_slots_of confirmed forecast inputs) (tonight_id_of inputs)

/-- The `metrics` record computed at the top of `plan_charging`. -/
def metrics_of (inputs : PlannerInputs) : ChargeMetrics :=
  let needed_soc := _needed_charge_soc_pct_for_tomorrow inputs
  let needed_kwh := _needed_energy_kwh inputs needed_soc
  ⟨needed_soc, needed_kwh,
    _hours_needed_for_energy inputs needed_kwh DEFAULT_CHARGING_EFFICIENCY,
    _slots_needed_for_energy inputs needed_kwh⟩

/-- One iteration of the opportunistic `for nid, start, end in windows`
loop: the night's cheapest 2-slot block as a candidate, if any. -/
def opp_candidate (confirmed forecast : List RateSlot) (inputs : PlannerInputs)
    (w : PyDateTime × PyDateTime × PyDateTime) : Option OppCand :=
  let slots := night_slots_get (night_slots_of confirmed forecast inputs) (instant w.1)
  if slots.isEmpty then none
  else
    match _contiguous_block_cheapest slots 2 with
    | none => none
    | some (s, e, avg) => some ⟨avg, instant w.1, s, e⟩

/-- The `best_by_night` list of the opportunistic branch
(`one_hour_slots = 2`). -/
def best_by_night_of (confirmed forecast : List RateSlot) (inputs : PlannerInputs) :
    List OppCand :=
  (planner_windows inputs).filterMap (opp_candidate confirmed forecast inputs)

/-- Body of core.py `plan_charging` after the timezone precondition checks. -/
def plan_body (confirmed_rates forecast_rates : List RateSlot)
    (inputs : PlannerInputs) : PlannerOutputs :=
  let metrics := metrics_of inputs
  let windows := planner_windows inputs
  let merged := _merge_confirmed_over_forecast confirmed_rates forecast_rates
  if merged.length = 0 then
    ⟨⟨"NO_DATA", none, none, 0, "No rate data available (confirmed or forecast)."⟩,
      none, ⟨"DISABLED", "Deadline mode disabled."⟩, metrics⟩
  else
    let night_slots := night_slots_of confirmed_rates forecast_rates inputs
    let tonight_id := tonight_id_of inputs
    let tonight_slots := night_slots_get night_slots tonight_id
    let dl := _compute_deadline_plan inputs windows night_slots
    let tonight :=
      match blocks_get dl.2 tonight_id with
      | some (s, e, slots) =>
        (⟨"PLUG_IN", some s, some e, (slots : ℚ) * (1 / 2),
          "Deadline mode: charging scheduled tonight as part of full-by plan."⟩ : TonightPlan)
      | none =>
        if tonight_slots.isEmpty then
          ⟨"NO_DATA", none, none, 0,
            "No rate coverage in tonight's plug window (17:00–07:00)."⟩
        else if 0 < metrics.needed_slots then
          match _contiguous_block_cheapest tonight_slots metrics.needed_slots with
          | none =>
            ⟨"AT_RISK", none, none, 0,
              "Not enough contiguous rate slots tonight to meet required target."⟩
          | some (s, e, _avg) =>
            ⟨"PLUG_IN", some s, some e, (metrics.needed_slots : ℚ) * (1 / 2),
              "Charge required to meet tomorrow's SoC target."⟩
        else
          match List.insertionSort oppLE (best_by_night_of confirmed_rates forecast_rates inputs) with
          | [] =>
            ⟨"NO_NEED", none, none, 0,
              "Above morning floor; no opportunistic data for next 7 nights."⟩
          | best :: _ =>
            if best.nid = tonight_id then
              ⟨"PLUG_IN", some best.s, some best.e, 1,
                "Opportunistic: tonight has the cheapest 1-hour window across next 7 nights."⟩
            else
              ⟨"NO_NEED", none, none, 0,
                "Above morning floor; tonight is not the cheapest 1-hour window in next 7 nights."⟩
    let next_charge :=
      if tonight.state ≠ "PLUG_IN" then
        match (List.insertionSort intLE (dl.2.map Prod.fst)).filter
            (fun nid => decide (tonight_id < nid)) with
        | [] => none
        | nid :: _ =>
          match blocks_get dl.2 nid with
          | none => none
          | some (s, e, slots) =>
            some (⟨"PLUG_IN", some s, some e, (slots : ℚ) * (1 / 2),
              "Next scheduled charge from deadline plan."⟩ : TonightPlan)
      else none
    ⟨tonight, next_charge, dl.1, metrics⟩

/-- Model of core.py `plan_charging`: the `raise ValueError` precondition
checks become `Except.error`. -/
def plan_charging (confirmed_rates forecast_rates : List RateSlot)
    (inputs : PlannerInputs) : Except String PlannerOutputs :=
  if !(_is_tz_aware inputs.now) then
    Except.error "inputs.now must be timezone-aware"
  else if (match inputs.full_by with
           | some fb => !(_is_tz_aware fb)
           | none => false) then
    Except.error "inputs.full_by must be timezone-aware"
  else Except.ok (plan_body confirmed_rates forecast_rates inputs)

/-- Modelled from the spec: the cost estimator `_estimate_cost_for_window`
(§4.6 Metrics/Cost Estimator) is missing from src/ core.py; only its tests
(tests/test_planner.py) and the sensor reading `tonight_estimated_cost`
refer to it.  For every half-hour slot fully inside `[s, e)` the price of
the merged slot starting there is multiplied by the energy drawn in that
half hour (`charger_power_kw * 0.5`) and the products are summed; a missing
slot makes the estimate `none`; zero charger power gives `some 0`. -/
def _estimate_cost_for_window (merged : List RateSlot) (s e : Int)
    (charger_power_kw : ℚ) : Option ℚ :=
  if charger_power_kw = 0 then some 0
  else
    let n := (e - s).toNat / 30
    match (List.range n).mapM (fun (k : Nat) =>
        (merged.find? (fun x => x.start == s + 30 * (k : Int))).map
          RateSlot.price_p_per_kwh) with
    | none => none
    | some prices =>
      some ((prices.map (fun p => p * charger_power_kw * (1 / 2))).sum)

/-- Modelled from the spec: the metrics fields `tonight_planned_slots` and
`tonight_estimated_cost` (§3 ChargeMetrics, §4.6) are missing from the
src/ core.py `ChargeMetrics`; when a PLUG_IN window is chosen for tonight
they are the number of half-hour slots of the window and its estimated
cost, else zero and absent. -/
def tonight_extra_metrics (merged : List RateSlot) (tonight : TonightPlan)
    (charger_power_kw : ℚ) : Nat × Option ℚ :=
  match tonight.state == "PLUG_IN", tonight.start, tonight.end_ with
  | true, some s, some e =>
    ((e - s).toNat / 30, _estimate_cost_for_window merged s e charger_power_kw)
  | _, _, _ => (0, none)

namespace Normalise

/-- Model of normalise.py `RateSlot`: the start keeps the full datetime
model since records may carry naive timestamps before the hint applies. -/
structure RateSlot where
  start : PyDateTime
  price_p_per_kwh : ℚ
deriving DecidableEq, Repr

/-- Python values that can sit in a rate record: `None`, datetimes, strings
and numbers (ints and floats both map to `pynum`). -/
inductive PyVal where
  | pynone
  | pydt (d : PyDateTime)
  | pystr (s : String)
  | pynum (q : ℚ)
deriving DecidableEq, Repr

/-- A rate record: a Python dict modelled as a key-unique association list. -/
abbrev Record := List (String × PyVal)

/-- Python `item.get(k)` (absent keys give `None`). -/
def Record.get (item : Record) (k : String) : PyVal :=
  ((item.find? (fun p => p.1 == k)).map Prod.snd).getD PyVal.pynone

/-- Python truthiness of the modelled values: `None`, `""` and `0` are
falsy; datetimes and everything else here are truthy. -/
def truthy : PyVal → Bool
  | .pynone => false
  | .pydt _ => true
  | .pystr s => !(s == "")
  | .pynum q => !(q == 0)

/-- Python `item.get(k1) or item.get(k2) or ... or item.get(kn)`: the first
truthy operand, else the value of the last operand. -/
def pyOrChain (item : Record) : List String → PyVal
  | [] => PyVal.pynone
  | [k] => item.get k
  | k :: k2 :: rest =>
    let v := item.get k
    if truthy v then v else pyOrChain item (k2 :: rest)

/-- Model of normalise.py `_parse_dt`.  `datetime.fromisoformat` is Python
standard library behaviour, abstracted as the parameter `iso_parse`
(returning `none` models `ValueError`). -/
def _parse_dt (iso_parse : String → Option PyDateTime) : PyVal → Option PyDateTime
  | .pydt d => some d
  | .pystr s => iso_parse (s.replace "Z" "+00:00")
  | _ => none

/-- Model of normalise.py `_safe_float`.  `float(...)` on strings is Python
standard library behaviour, abstracted as the parameter `float_parse`;
`float(None)` and `float(datetime)` raise and are caught, giving `none`. -/
def _safe_float (float_parse : String → Option ℚ) : PyVal → Option ℚ
  | .pynone => none
  | .pynum q => some q
  | .pystr s => float_parse s
  | .pydt _ => none

/-- Model of normalise.py `normalise_price_to_p_per_kwh`:
`if -1.0 < price < 1.0: return price * 100.0`. -/
def normalise_price_to_p_per_kwh (price : ℚ) : ℚ :=
  if -1 < price ∧ price < 1 then price * 100 else price

/-- The timestamp key priority list of `parse_rates_list`. -/
def datetime_keys : List String :=
  ["start", "date_time", "datetime", "from"]

/-- The price key priority list of `parse_rates_list`. -/
def price_keys : List String :=
  ["price_p_per_kwh", "p_per_kwh", "agile_pred", "price", "value", "value_inc_vat"]

/-- One iteration of the `for item in items` loop of `parse_rates_list`:
`some slot` when the record is appended to `out`, `none` on `continue`.
The `isinstance(item, dict)` guard always holds in the model. -/
def parse_record (iso_parse : String → Option PyDateTime)
    (float_parse : String → Option ℚ) (tz_hint : Option Int)
    (item : Record) : Option RateSlot :=
  match _parse_dt iso_parse (pyOrChain item datetime_keys) with
  | none => none
  | some dt0 =>
    let dt := if dt0.off.isNone && tz_hint.isSome then (⟨dt0.wall, tz_hint⟩ : PyDateTime) else dt0
    if dt.off.isNone then none
    else
      match _safe_float float_parse (pyOrChain item price_keys) with
      | none => none
      | some price => some ⟨dt, normalise_price_to_p_per_kwh price⟩

/-- Sort key of `sorted(out, key=lambda r: r.start)`: every emitted slot is
timezone-aware, and Python compares aware datetimes by instant. -/
def nslotLE (a b : RateSlot) : Prop :=
  instant a.start ≤ instant b.start

instance : DecidableRel nslotLE :=
  fun a b => inferInstanceAs (Decidable (instant a.start ≤ instant b.start))

instance : IsTotal RateSlot nslotLE :=
  ⟨fun a b => le_total (instant a.start) (instant b.start)⟩

instance : IsTrans RateSlot nslotLE :=
  ⟨fun _ _ _ h1 h2 => le_trans h1 h2⟩

/-- Model of normalise.py `parse_rates_list`. -/
def parse_rates_list (iso_parse : String → Option PyDateTime)
    (float_parse : String → Option ℚ) (items : List Record)
    (tz_hint : Option Int) : List RateSlot :=
  let out := items.foldl (fun out item =>
    match parse_record iso_parse float_parse tz_hint item with
    | none => out
    | some r => out ++ [r]) []
  List.insertionSort nslotLE out

/-- The claim-side per-record extraction, written from the amended claim:
consult the candidate keys in priority order and take the first truthy
value, falling back to the last key's value when none is truthy. -/
def first_truthy_or_last (item : Record) (keys : List String) : PyVal :=
  match keys.find? (fun k => truthy (item.get k)) with
  | some k => item.get k
  | none => item.get (keys.getLastD "")

/-- The claim-side record-to-slot function: parse the selected timestamp
value, apply the timezone hint to naive results, drop records still naive,
parse the selected price value and normalise its unit. -/
def record_to_slot (iso_parse : String → Option PyDateTime)
    (float_parse : String → Option ℚ) (tz_hint : Option Int)
    (item : Record) : Option RateSlot :=
  match _parse_dt iso_parse (first_truthy_or_last item datetime_keys) with
  | none => none
  | some dt0 =>
    let dt := if dt0.off.isNone && tz_hint.isSome then (⟨dt0.wall, tz_hint⟩ : PyDateTime) else dt0
    if dt.off.isNone then none
    else
      (_safe_float float_parse (first_truthy_or_last item price_keys)).map
        (fun price => ⟨dt, normalise_price_to_p_per_kwh price⟩)

end Normalise

/-! Spec-side predicates used to state the claims. -/

/-- A contiguous run of `n` slots starting at list index `i`: the window is
fully inside the list and consecutive starts are exactly 30 minutes apart. -/
def run_ok (slots : List RateSlot) (n i : Nat) : Prop :=
  i + n ≤ slots.length ∧ chain30 (window slots i n) = true

instance (slots : List RateSlot) (n i : Nat) : Decidable (run_ok slots n i) :=
  inferInstanceAs (Decidable (_ ∧ _))

/-- Start instant of the slot at index `i` (a default outside the range). -/
def start_at (slots : List RateSlot) (i : Nat) : Int :=
  (slots.getD i ⟨0, 0⟩).start

/-- The block-search contract of the claim: a found block is a minimal-sum
contiguous run, reported with its start, last start + 30 minutes and mean
price, earliest among ties; and nothing is found exactly when no contiguous
run of the requested length exists. -/
def BlockSpec (slots : List RateSlot) (n : Nat) : Prop :=
  match _contiguous_block_cheapest slots n with
  | none => ∀ i, ¬ run_ok slots n i
  | some (s, e, m) =>
    ∃ i, run_ok slots n i ∧
      s = start_at slots i ∧
      e = start_at slots (i + n - 1) + 30 ∧
      m = window_total slots i n / (n : ℚ) ∧
      (∀ j, run_ok slots n j → window_total slots i n ≤ window_total slots j n) ∧
      (∀ j, j < i → run_ok slots n j → window_total slots i n < window_total slots j n)

/-- The `out` dict of `_merge_confirmed_over_forecast`: seeded from
forecast, then overwritten with the confirmed map's values. -/
def merge_out (confirmed forecast : List RateSlot) : List (Int × RateSlot) :=
  dict_from (dict_from [] forecast) ((dict_from [] confirmed).map Prod.snd)

/-- Invariant of the block-search scan after the first `k` indices: the
running best is the cheapest gap-free window seen so far, held by its
earliest index among ties. -/
def BestInv (slots : List RateSlot) (n k : Nat) : Option (ℚ × Nat) → Prop
  | none => ∀ i, i < k → chain30 (window slots i n) = false
  | some b =>
    b.2 < k ∧ chain30 (window slots b.2 n) = true ∧
    b.1 = window_total slots b.2 n ∧
    (∀ j, j < k → chain30 (window slots j n) = true →
      b.1 ≤ window_total slots j n) ∧
    (∀ j, j < b.2 → chain30 (window slots j n) = true →
      b.1 < window_total slots j n)

/-- The merge contract of the claim: merged starts are the union of the
input starts, the result is strictly sorted by start (so unique by start),
and any slot whose start occurs in the confirmed input is a confirmed slot. -/
def MergeSpec (confirmed forecast : List RateSlot) : Prop :=
  let merged := _merge_confirmed_over_forecast confirmed forecast
  (∀ t : Int, (∃ s ∈ merged, s.start = t) ↔
      ((∃ s ∈ confirmed, s.start = t) ∨ (∃ s ∈ forecast, s.start = t))) ∧
  List.Pairwise (fun a b : RateSlot => a.start < b.start) merged ∧
  (∀ s ∈ merged, (∃ c ∈ confirmed, c.start = s.start) → s ∈ confirmed)

/-- Number of half-hour slots fully inside `[s, e)`. -/
def cost_window_len (s e : Int) : Nat :=
  (e - s).toNat / 30

/-- Whether the merged sequence has a slot starting at instant `t`. -/
def slot_present (merged : List RateSlot) (t : Int) : Bool :=
  (merged.find? (fun x => x.start == t)).isSome

/-- Price of the merged slot starting at instant `t` (0 if absent). -/
def price_at (merged : List RateSlot) (t : Int) : ℚ :=
  ((merged.find? (fun x => x.start == t)).map RateSlot.price_p_per_kwh).getD 0

/-- The cost-estimator contract of the claim: zero power gives cost 0, full
coverage gives the sum of price times `power * 0.5` over the window's
half-hour slots, and a missing slot gives no estimate at all. -/
def CostSpec (merged : List RateSlot) (s e : Int) (power : ℚ) : Prop :=
  (power = 0 → _estimate_cost_for_window merged s e power = some 0) ∧
  ((∀ k, k < cost_window_len s e → slot_present merged (s + 30 * (k : Int)) = true) →
    _estimate_cost_for_window merged s e power =
      some (((List.range (cost_window_len s e)).map
        (fun (k : Nat) => price_at merged (s + 30 * (k : Int)) * power * (1 / 2))).sum)) ∧
  (power ≠ 0 →
    (∃ k, k < cost_window_len s e ∧ slot_present merged (s + 30 * (k : Int)) = false) →
    _estimate_cost_for_window merged s e power = none)

/-- The tonight-metrics contract of the claim: for a chosen PLUG_IN window
the metrics are the window's slot count and its estimated cost (with the
`CostSpec` properties); otherwise zero and absent. -/
def MetricsSpec (merged : List RateSlot) (t : TonightPlan) (power : ℚ) : Prop :=
  (∀ s e, t.state = "PLUG_IN" → t.start = some s → t.end_ = some e →
    tonight_extra_metrics merged t power =
      (cost_window_len s e, _estimate_cost_for_window merged s e power) ∧
    CostSpec merged s e power) ∧
  (t.state ≠ "PLUG_IN" → tonight_extra_metrics merged t power = (0, none))

/-- Claim-side formula: the required morning SoC. -/
def spec_required (inputs : PlannerInputs) : ℚ :=
  if inputs.full_tomorrow_enabled then inputs.full_tomorrow_target_soc_pct
  else inputs.min_morning_soc_pct + inputs.soc_buffer_pct

/-- Claim-side formula: the projected SoC tomorrow morning. -/
def spec_projected (inputs : PlannerInputs) : ℚ :=
  max 0 (inputs.current_soc_pct - inputs.daily_usage_pct)

/-- Claim-side formula: the SoC percentage still needed. -/
def spec_needed_soc (inputs : PlannerInputs) : ℚ :=
  max 0 (spec_required inputs - spec_projected inputs)

/-- Claim-side formula: the needed energy, with no clamping. -/
def spec_needed_energy (inputs : PlannerInputs) : ℚ :=
  spec_needed_soc inputs / 100 * inputs.battery_capacity_kwh

/-- Claim-side formula: the needed charging hours at efficiency 0.90. -/
def spec_needed_hours (inputs : PlannerInputs) : ℚ :=
  spec_needed_energy inputs / (9 / 10) / inputs.charger_power_kw

/-- The needed-charge arithmetic of the claim, written out from the spec
formulas (no clamping on the energy product, explicit ceiling). -/
def NeededChargeSpec (inputs : PlannerInputs) : Prop :=
  _required_soc_for_tomorrow inputs = spec_required inputs ∧
  _projected_soc_tomorrow_morning inputs = spec_projected inputs ∧
  _needed_charge_soc_pct_for_tomorrow inputs = spec_needed_soc inputs ∧
  _needed_energy_kwh inputs (_needed_charge_soc_pct_for_tomorrow inputs) =
    spec_needed_energy inputs ∧
  (metrics_of inputs).needed_hours = spec_needed_hours inputs ∧
  (metrics_of inputs).needed_slots = (⌈spec_needed_hours inputs / (1 / 2 : ℚ)⌉).toNat ∧
  (spec_needed_hours inputs = 0 → (metrics_of inputs).needed_slots = 0)

/-- The deadline-plan blocks dict as computed inside `plan_charging`. -/
def blocks_of (confirmed forecast : List RateSlot) (inputs : PlannerInputs) : Blocks :=
  (_compute_deadline_plan inputs (planner_windows inputs)
    (night_slots_of confirmed forecast inputs)).2

/-- The opportunistic-branch contract of the claim, relative to the
`best_by_night` candidate list and tonight's night id. -/
def OppSpec (out : PlannerOutputs) (bbn : List OppCand) (tid : Int) : Prop :=
  (bbn = [] → out.tonight =
    ⟨"NO_NEED", none, none, 0,
      "Above morning floor; no opportunistic data for next 7 nights."⟩) ∧
  (∀ cand ∈ bbn, cand.nid = tid → (∀ other ∈ bbn, cand.avg ≤ other.avg) →
    out.tonight =
      ⟨"PLUG_IN", some cand.s, some cand.e, 1,
        "Opportunistic: tonight has the cheapest 1-hour window across next 7 nights."⟩) ∧
  ((∃ cand ∈ bbn, cand.nid ≠ tid ∧ ∀ c2 ∈ bbn, c2.nid = tid → cand.avg < c2.avg) →
    out.tonight =
      ⟨"NO_NEED", none, none, 0,
        "Above morning floor; tonight is not the cheapest 1-hour window in next 7 nights."⟩)

/-- The amended deadline-status contract: DISABLED exactly on a disabled
switch, a missing deadline instant, a non-positive target, or an empty
merged sequence; with non-empty merged rates an activated deadline whose
`full_by` is not strictly in the future always yields AT_RISK with the
past-deadline summary; and the status is always one of the three values. -/
def DeadlineAmendedSpec (confirmed forecast : List RateSlot)
    (inputs : PlannerInputs) (out : PlannerOutputs) : Prop :=
  (out.deadline.status = "DISABLED" ↔
    (_merge_confirmed_over_forecast confirmed forecast = [] ∨
      inputs.deadline_enabled = false ∨ inputs.full_by = none ∨
      inputs.deadline_target_soc_pct ≤ 0)) ∧
  (∀ fb, inputs.full_by = some fb → inputs.deadline_enabled = true →
    0 < inputs.deadline_target_soc_pct → instant fb ≤ instant inputs.now →
    _merge_confirmed_over_forecast confirmed forecast ≠ [] →
    out.deadline = ⟨"AT_RISK", "Deadline is in the past or now."⟩) ∧
  (out.deadline.status = "DISABLED" ∨ out.deadline.status = "ON_TRACK" ∨
    out.deadline.status = "AT_RISK")

/-- The amended normaliser contract: the output is exactly the per-record
extraction `record_to_slot` (first-truthy key lookup) filtered over the
records, sorted ascending by timestamp and not deduplicated. -/
def ParseSpec (iso_parse : String → Option PyDateTime)
    (float_parse : String → Option ℚ) (items : List Normalise.Record)
    (tz_hint : Option Int) : Prop :=
  Normalise.parse_rates_list iso_parse float_parse items tz_hint =
    List.insertionSort Normalise.nslotLE
      (items.filterMap (Normalise.record_to_slot iso_parse float_parse tz_hint)) ∧
  List.Sorted Normalise.nslotLE
    (Normalise.parse_rates_list iso_parse float_parse items tz_hint) ∧
  (Normalise.parse_rates_list iso_parse float_parse items tz_hint).Perm
    (items.filterMap (Normalise.record_to_slot iso_parse float_parse tz_hint))

/-! Concrete inputs used by witnesses and counterexamples. -/

/-- Witness slots: two contiguous half-hour slots from instant 0. -/
def ex_slots1 : List RateSlot :=
  [⟨0, 5⟩, ⟨30, 3⟩]

/-- Inputs with an enabled deadline whose `full_by` (15:00) is before `now`
(18:00 on day 0, UTC), a positive target, and otherwise plain values. -/
def c4_inputs : PlannerInputs :=
  ⟨⟨1080, some 0⟩, 30, 10, 70, 7, 45, 5, false, 100, true, some ⟨900, some 0⟩, 80⟩

/-- A single confirmed slot inside tonight's window, so merged rates are
non-empty. -/
def c4_slots : List RateSlot :=
  [⟨1020, 10⟩]

/-- Inputs with an enabled deadline, a `full_by` (day 2, 18:40) strictly in
the future of `now` (18:00 on day 0, UTC) and a positive target, so the
claim's activation conditions all hold. -/
def c4b_inputs : PlannerInputs :=
  ⟨⟨1080, some 0⟩, 30, 10, 70, 7, 45, 5, false, 100, true, some ⟨4000, some 0⟩, 80⟩

/-- Witness inputs for the needed-charge formulas: the spec's example
(42% now, 10% daily use, floor 45+5, 70 kWh battery, 7 kW charger). -/
def c5_inputs : PlannerInputs :=
  ⟨⟨1080, some 0⟩, 42, 10, 70, 7, 45, 5, false, 100, false, none, 0⟩

/-- Witness inputs above the morning floor (no required charge). -/
def c6_inputs : PlannerInputs :=
  ⟨⟨1080, some 0⟩, 70, 10, 70, 7, 45, 5, false, 100, false, none, 0⟩

/-- Witness slots: a single cheap contiguous hour tonight at 23:00. -/
def c6_slots : List RateSlot :=
  [⟨1380, 1⟩, ⟨1410, 1⟩]

/-- Witness inputs with a zero-power charger. -/
def c10_inputs : PlannerInputs :=
  ⟨⟨1080, some 0⟩, 42, 10, 70, 0, 45, 5, false, 100, false, none, 0⟩

/-- A record with a parseable timestamp under the recognised key `start` and
the parseable numeric price `0.0` under the recognised key `price`. -/
def c7_record : Normalise.Record :=
  [("start", Normalise.PyVal.pydt ⟨0, some 0⟩), ("price", Normalise.PyVal.pynum 0)]

/-- Trivial stand-ins for the abstract stdlib string parsers. -/
def iso_none : String → Option PyDateTime := fun _ => none

/-- Trivial stand-in for the abstract float string parser. -/
def float_none : String → Option ℚ := fun _ => none

/-! Theorems. -/

theorem int_trunc_eq_floor (q : ℚ) (hq : 0 ≤ q) : int_trunc q = ⌊q⌋ := by
  unfold int_trunc
  rw [Rat.floor_def]
  exact Int.tdiv_eq_ediv (Rat.num_nonneg.mpr hq) (Int.natCast_nonneg _)

theorem ceil_slots_eq (h sh : ℚ) (hh : 0 ≤ h) (hs : 0 < sh) :
    _ceil_slots h sh = (⌈h / sh⌉).toNat := by
  unfold _ceil_slots
  by_cases h0 : h ≤ 0
  · have hz : h = 0 := le_antisymm h0 hh
    subst hz
    simp
  · rw [if_neg h0]
    push_neg at h0
    have hq : 0 ≤ h / sh := le_of_lt (div_pos h0 hs)
    rw [int_trunc_eq_floor _ hq]
    by_cases hlt : (⌊h / sh⌋ : ℚ) * sh < h
    · rw [if_pos hlt]
      have hflt : (⌊h / sh⌋ : ℚ) < h / sh := (lt_div_iff₀ hs).mpr hlt
      have hceil : ⌈h / sh⌉ = ⌊h / sh⌋ + 1 :=
        le_antisymm (Int.ceil_le_floor_add_one _) (Int.add_one_le_ceil_iff.mpr hflt)
      rw [hceil]
    · rw [if_neg hlt]
      push_neg at hlt
      have hle : h / sh ≤ (⌊h / sh⌋ : ℚ) := (div_le_iff₀ hs).mpr hlt
      have hceil : ⌈h / sh⌉ = ⌊h / sh⌋ :=
        le_antisymm (Int.ceil_le.mpr hle) (Int.floor_le_ceil _)
      rw [hceil]

/-- C8: unit normalisation multiplies a parsed price by 100 exactly when its
absolute value is strictly below 1 (including negative prices) and leaves it
unchanged otherwise; with the three spec examples 0.167055 to 16.7055,
35.04 unchanged and -0.05 to -5.0. -/
theorem normalise_price_to_p_per_kwh_spec (p : ℚ) :
    (|p| < 1 → Normalise.normalise_price_to_p_per_kwh p = 100 * p) ∧
    (1 ≤ |p| → Normalise.normalise_price_to_p_per_kwh p = p) ∧
    Normalise.normalise_price_to_p_per_kwh (167055 / 1000000) = 167055 / 10000 ∧
    Normalise.normalise_price_to_p_per_kwh (3504 / 100) = 3504 / 100 ∧
    Normalise.normalise_price_to_p_per_kwh (-5 / 100) = -5 := by
  refine ⟨?_, ?_,
    by norm_num [Normalise.normalise_price_to_p_per_kwh],
    by norm_num [Normalise.normalise_price_to_p_per_kwh],
    by norm_num [Normalise.normalise_price_to_p_per_kwh]⟩
  · intro hp
    unfold Normalise.normalise_price_to_p_per_kwh
    rw [if_pos (abs_lt.mp hp)]
    ring
  · intro hp
    unfold Normalise.normalise_price_to_p_per_kwh
    rw [if_neg]
    rintro ⟨h1, h2⟩
    exact absurd (abs_lt.mpr ⟨h1, h2⟩) (not_lt.mpr hp)

theorem normalise_price_to_p_per_kwh_spec_witness :
    |(167055 / 1000000 : ℚ)| < 1 ∧
      Normalise.normalise_price_to_p_per_kwh (167055 / 1000000) =
        100 * (167055 / 1000000) :=
  have habs : |(167055 / 1000000 : ℚ)| < 1 := by
    rw [abs_of_pos (by norm_num : (0 : ℚ) < 167055 / 1000000)]
    norm_num
  ⟨habs, (normalise_price_to_p_per_kwh_spec (167055 / 1000000)).1 habs⟩

theorem plan_charging_ok (c f : List RateSlot) (inputs : PlannerInputs)
    (hnow : _is_tz_aware inputs.now = true)
    (hfb : ∀ fb, inputs.full_by = some fb → _is_tz_aware fb = true) :
    plan_charging c f inputs = Except.ok (plan_body c f inputs) := by
  unfold plan_charging
  rw [hnow]
  cases hm : inputs.full_by with
  | none => simp [hm]
  | some fb => simp [hm, hfb fb hm]

/-- C9: the planner signals an error exactly when `now` is naive or a
supplied `full_by` is naive; otherwise it returns a planner output. -/
theorem plan_charging_error_iff (c f : List RateSlot) (inputs : PlannerInputs) :
    (∃ out, plan_charging c f inputs = Except.ok out) ↔
      (_is_tz_aware inputs.now = true ∧
        ∀ fb, inputs.full_by = some fb → _is_tz_aware fb = true) := by
  constructor
  · rintro ⟨out, hout⟩
    unfold plan_charging at hout
    by_cases h1 : _is_tz_aware inputs.now
    · refine ⟨h1, ?_⟩
      intro fb hm
      by_cases h2 : _is_tz_aware fb
      · exact h2
      · rw [h1] at hout
        simp [hm, h2] at hout
    · simp [h1] at hout
  · rintro ⟨h1, h2⟩
    exact ⟨_, plan_charging_ok c f inputs h1 h2⟩

theorem hours_zero_of_nonpositive_power (inputs : PlannerInputs)
    (h : inputs.charger_power_kw ≤ 0) (e eff : ℚ) :
    _hours_needed_for_energy inputs e eff = 0 := by
  unfold _hours_needed_for_energy
  rw [if_pos h]

theorem slots_zero_of_nonpositive_power (inputs : PlannerInputs)
    (h : inputs.charger_power_kw ≤ 0) (e : ℚ) :
    _slots_needed_for_energy inputs e = 0 := by
  unfold _slots_needed_for_energy
  rw [hours_zero_of_nonpositive_power inputs h]
  unfold _ceil_slots
  rw [if_pos le_rfl]

/-- C5: the needed-charge quantities follow the spec formulas exactly when
the charger power is positive and the battery capacity is non-negative. -/
theorem needed_charge_spec (inputs : PlannerInputs)
    (hp : 0 < inputs.charger_power_kw) (hb : 0 ≤ inputs.battery_capacity_kwh) :
    NeededChargeSpec inputs := by
  have hneed0 : 0 ≤ _needed_charge_soc_pct_for_tomorrow inputs := le_max_left 0 _
  have henergy : _needed_energy_kwh inputs (_needed_charge_soc_pct_for_tomorrow inputs) =
      _needed_charge_soc_pct_for_tomorrow inputs / 100 * inputs.battery_capacity_kwh := by
    unfold _needed_energy_kwh _energy_kwh_from_soc_pct
    rw [max_eq_right (mul_nonneg hb (div_nonneg hneed0 (by norm_num)))]
    ring
  have henergy0 : 0 ≤ _needed_energy_kwh inputs (_needed_charge_soc_pct_for_tomorrow inputs) :=
    le_max_left 0 _
  have hhours : _hours_needed_for_energy inputs
      (_needed_energy_kwh inputs (_needed_charge_soc_pct_for_tomorrow inputs))
      DEFAULT_CHARGING_EFFICIENCY =
      _needed_energy_kwh inputs (_needed_charge_soc_pct_for_tomorrow inputs) / (9 / 10) /
        inputs.charger_power_kw := by
    unfold _hours_needed_for_energy DEFAULT_CHARGING_EFFICIENCY
    rw [if_neg (not_le.mpr hp)]
  have hhours0 : 0 ≤ _hours_needed_for_energy inputs
      (_needed_energy_kwh inputs (_needed_charge_soc_pct_for_tomorrow inputs))
      DEFAULT_CHARGING_EFFICIENCY := by
    rw [hhours]
    exact div_nonneg (div_nonneg henergy0 (by norm_num)) (le_of_lt hp)
  have hslots : (metrics_of inputs).needed_slots =
      (⌈_hours_needed_for_energy inputs
        (_needed_energy_kwh inputs (_needed_charge_soc_pct_for_tomorrow inputs))
        DEFAULT_CHARGING_EFFICIENCY / (1 / 2 : ℚ)⌉).toNat := by
    show _slots_needed_for_energy inputs _ = _
    unfold _slots_needed_for_energy
    exact ceil_slots_eq _ _ hhours0 (by norm_num)
  have hhours_spec : _hours_needed_for_energy inputs
      (_needed_energy_kwh inputs (_needed_charge_soc_pct_for_tomorrow inputs))
      DEFAULT_CHARGING_EFFICIENCY = spec_needed_hours inputs := by
    rw [hhours, henergy]
    rfl
  refine ⟨rfl, rfl, rfl, henergy, hhours_spec, ?_, ?_⟩
  · rw [hslots, hhours_spec]
  · intro h0
    rw [hslots, hhours_spec, h0]
    simp

theorem needed_charge_spec_witness :
    (0 : ℚ) < c5_inputs.charger_power_kw ∧ NeededChargeSpec c5_inputs :=
  ⟨by norm_num [c5_inputs],
    needed_charge_spec c5_inputs (by norm_num [c5_inputs]) (by norm_num [c5_inputs])⟩

theorem plan_body_metrics (c f : List RateSlot) (inputs : PlannerInputs) :
    (plan_body c f inputs).metrics = metrics_of inputs := by
  simp only [plan_body]
  split <;> rfl

theorem plan_body_required_reason (c f : List RateSlot) (inputs : PlannerInputs)
    (h : (metrics_of inputs).needed_slots = 0) :
    (plan_body c f inputs).tonight.reason ≠
      "Charge required to meet tomorrow's SoC target." := by
  simp only [plan_body]
  split
  · simp
  · split
    · simp
    · split
      · simp
      · split
        · rename_i hpos
          rw [h] at hpos
          exact absurd hpos (by omega)
        · split
          · simp
          · split
            · simp
            · split <;> simp

/-- C10: with non-positive charger power the needed-hours computation
returns 0 and the needed-slots computation returns 0 without dividing by
the charger power, and the planner runs to completion with zero needed
slots, never reaching the required-charge branch. -/
theorem charger_nonpositive_safe (inputs : PlannerInputs)
    (h : inputs.charger_power_kw ≤ 0)
    (hnow : _is_tz_aware inputs.now = true)
    (hfb : ∀ fb, inputs.full_by = some fb → _is_tz_aware fb = true) :
    (∀ e eff : ℚ, _hours_needed_for_energy inputs e eff = 0) ∧
    (∀ e : ℚ, _slots_needed_for_energy inputs e = 0) ∧
    ∀ c f : List RateSlot, ∃ out, plan_charging c f inputs = Except.ok out ∧
      out.metrics.needed_slots = 0 ∧
      out.tonight.reason ≠ "Charge required to meet tomorrow's SoC target." := by
  have hslots0 : (metrics_of inputs).needed_slots = 0 :=
    slots_zero_of_nonpositive_power inputs h _
  refine ⟨hours_zero_of_nonpositive_power inputs h,
    slots_zero_of_nonpositive_power inputs h, ?_⟩
  intro c f
  refine ⟨plan_body c f inputs, plan_charging_ok c f inputs hnow hfb, ?_, ?_⟩
  · rw [plan_body_metrics]
    exact hslots0
  · exact plan_body_required_reason c f inputs hslots0

theorem dict_set_keys_of_contains (m : List (Int × RateSlot)) (k : Int) (v : RateSlot)
    (hc : (m.map Prod.fst).contains k = true) :
    (dict_set m k v).map Prod.fst = m.map Prod.fst := by
  unfold dict_set
  rw [if_pos hc, List.map_map]
  refine List.map_congr_left ?_
  intro p _
  by_cases hk : p.1 = k
  · simp only [Function.comp_apply, if_pos hk]
    exact hk.symm
  · simp only [Function.comp_apply, if_neg hk]

theorem dict_set_keys_of_not_contains (m : List (Int × RateSlot)) (k : Int)
    (v : RateSlot) (hc : ¬(m.map Prod.fst).contains k = true) :
    (dict_set m k v).map Prod.fst = m.map Prod.fst ++ [k] := by
  unfold dict_set
  rw [if_neg hc, List.map_append]
  rfl

theorem dict_set_mem_keys (m : List (Int × RateSlot)) (k : Int) (v : RateSlot)
    (a : Int) :
    a ∈ (dict_set m k v).map Prod.fst ↔ a ∈ m.map Prod.fst ∨ a = k := by
  by_cases hc : (m.map Prod.fst).contains k = true
  · rw [dict_set_keys_of_contains m k v hc]
    have hk : k ∈ m.map Prod.fst := by simpa using hc
    constructor
    · exact Or.inl
    · rintro (ha | rfl)
      · exact ha
      · exact hk
  · rw [dict_set_keys_of_not_contains m k v hc]
    simp

theorem dict_set_keys_nodup (m : List (Int × RateSlot)) (k : Int) (v : RateSlot)
    (h : (m.map Prod.fst).Nodup) : ((dict_set m k v).map Prod.fst).Nodup := by
  by_cases hc : (m.map Prod.fst).contains k = true
  · rw [dict_set_keys_of_contains m k v hc]
    exact h
  · rw [dict_set_keys_of_not_contains m k v hc]
    have hk : k ∉ m.map Prod.fst := by simpa using hc
    rw [List.nodup_append]
    refine ⟨h, List.nodup_singleton k, ?_⟩
    intro a ha hb
    rw [List.mem_singleton] at hb
    subst hb
    exact hk ha

theorem dict_set_entry (m : List (Int × RateSlot)) (k : Int) (v : RateSlot)
    (p : Int × RateSlot) (hp : p ∈ dict_set m k v) :
    (p ∈ m ∧ p.1 ≠ k) ∨ p = (k, v) := by
  unfold dict_set at hp
  by_cases hc : (m.map Prod.fst).contains k = true
  · rw [if_pos hc] at hp
    rw [List.mem_map] at hp
    obtain ⟨q, hq, hqa⟩ := hp
    by_cases hk : q.1 = k
    · rw [if_pos hk] at hqa
      exact Or.inr hqa.symm
    · rw [if_neg hk] at hqa
      subst hqa
      exact Or.inl ⟨hq, hk⟩
  · rw [if_neg hc] at hp
    rw [List.mem_append, List.mem_singleton] at hp
    rcases hp with hp | hp
    · have hk : k ∉ m.map Prod.fst := by simpa using hc
      exact Or.inl ⟨hp, fun he => hk (he ▸ List.mem_map.mpr ⟨p, hp, rfl⟩)⟩
    · exact Or.inr hp

theorem dict_set_wf (m : List (Int × RateSlot)) (k : Int) (v : RateSlot)
    (hv : k = v.start) (h : ∀ p ∈ m, p.1 = p.2.start) :
    ∀ p ∈ dict_set m k v, p.1 = p.2.start := by
  intro p hp
  rcases dict_set_entry m k v p hp with ⟨hpm, _⟩ | rfl
  · exact h p hpm
  · exact hv

theorem dict_from_mem_keys (l : List RateSlot) :
    ∀ (init : List (Int × RateSlot)) (a : Int),
      (a ∈ (dict_from init l).map Prod.fst ↔
        a ∈ init.map Prod.fst ∨ ∃ s ∈ l, s.start = a) := by
  induction l with
  | nil => intro init a; simp [dict_from]
  | cons x xs ih =>
    intro init a
    show a ∈ (dict_from (dict_set init x.start x) xs).map Prod.fst ↔ _
    rw [ih (dict_set init x.start x) a, dict_set_mem_keys]
    constructor
    · rintro ((ha | rfl) | ⟨s, hs, rfl⟩)
      · exact Or.inl ha
      · exact Or.inr ⟨x, List.mem_cons_self x xs, rfl⟩
      · exact Or.inr ⟨s, List.mem_cons_of_mem x hs, rfl⟩
    · rintro (ha | ⟨s, hs, rfl⟩)
      · exact Or.inl (Or.inl ha)
      · rcases List.mem_cons.mp hs with rfl | hs
        · exact Or.inl (Or.inr rfl)
        · exact Or.inr ⟨s, hs, rfl⟩

theorem dict_from_keys_nodup (l : List RateSlot) :
    ∀ init : List (Int × RateSlot), (init.map Prod.fst).Nodup →
      ((dict_from init l).map Prod.fst).Nodup := by
  induction l with
  | nil => intro init h; exact h
  | cons x xs ih =>
    intro init h
    exact ih (dict_set init x.start x) (dict_set_keys_nodup init x.start x h)

theorem dict_from_wf (l : List RateSlot) :
    ∀ init : List (Int × RateSlot), (∀ p ∈ init, p.1 = p.2.start) →
      ∀ p ∈ dict_from init l, p.1 = p.2.start := by
  induction l with
  | nil => intro init h; exact h
  | cons x xs ih =>
    intro init h
    exact ih (dict_set init x.start x) (dict_set_wf init x.start x rfl h)

theorem dict_from_entry (l : List RateSlot) :
    ∀ (init : List (Int × RateSlot)) (p : Int × RateSlot),
      p ∈ dict_from init l →
      p.2 ∈ l ∨ (p ∈ init ∧ ∀ s ∈ l, s.start ≠ p.1) := by
  induction l with
  | nil => intro init p hp; exact Or.inr ⟨hp, by simp⟩
  | cons x xs ih =>
    intro init p hp
    rcases ih (dict_set init x.start x) p hp with hv | ⟨hpi, hne⟩
    · exact Or.inl (List.mem_cons_of_mem x hv)
    · rcases dict_set_entry init x.start x p hpi with ⟨hpm, hk⟩ | rfl
      · refine Or.inr ⟨hpm, ?_⟩
        intro s hs
        rcases List.mem_cons.mp hs with rfl | hs
        · exact fun hx => hk hx.symm
        · exact hne s hs
      · exact Or.inl (List.mem_cons_self x xs)

theorem window_length (slots : List RateSlot) (i n : Nat) (h : i + n ≤ slots.length) :
    (window slots i n).length = n := by
  unfold window
  rw [List.length_take, List.length_drop]
  omega

theorem window_getElem? (slots : List RateSlot) (i n k : Nat) (hk : k < n) :
    (window slots i n)[k]? = slots[i + k]? := by
  unfold window
  rw [List.getElem?_take, if_pos hk, List.getElem?_drop]

theorem window_nonzero (slots : List RateSlot) (i n : Nat) (f : RateSlot)
    (t : List RateSlot) (hw : window slots i n = f :: t) : 1 ≤ n := by
  by_contra hc
  have hn : n = 0 := by omega
  unfold window at hw
  rw [hn, List.take_zero] at hw
  exact List.noConfusion hw

theorem window_head_eq (slots : List RateSlot) (i n : Nat) (f : RateSlot)
    (t : List RateSlot) (hw : window slots i n = f :: t) :
    f.start = start_at slots i := by
  have hn := window_nonzero slots i n f t hw
  have h0 : (window slots i n)[0]? = some f := by rw [hw]; simp
  rw [window_getElem? slots i n 0 (by omega), Nat.add_zero] at h0
  unfold start_at
  rw [List.getD_eq_getElem?_getD, h0]
  rfl

theorem window_last_eq (slots : List RateSlot) (i n : Nat) (f : RateSlot)
    (t : List RateSlot) (h : i + n ≤ slots.length)
    (hw : window slots i n = f :: t) :
    ((f :: t).getLast (List.cons_ne_nil f t)).start = start_at slots (i + n - 1) := by
  have hn := window_nonzero slots i n f t hw
  have hlen : (f :: t).length = n := by rw [← hw]; exact window_length slots i n h
  have hA : (f :: t).getLast? = some ((f :: t).getLast (List.cons_ne_nil f t)) :=
    List.getLast?_eq_getLast (f :: t) (List.cons_ne_nil f t)
  have hB : (f :: t).getLast? = (f :: t)[(f :: t).length - 1]? :=
    List.getLast?_eq_getElem? (f :: t)
  rw [hlen] at hB
  have h2 : (window slots i n)[n - 1]? = slots[i + (n - 1)]? :=
    window_getElem? slots i n (n - 1) (by omega)
  rw [hw] at h2
  have hC : some ((f :: t).getLast (List.cons_ne_nil f t)) = slots[i + (n - 1)]? :=
    hA.symm.trans (hB.trans h2)
  unfold start_at
  rw [List.getD_eq_getElem?_getD, show i + n - 1 = i + (n - 1) by omega, ← hC]
  rfl

theorem best_loop_inv (slots : List RateSlot) (n : Nat) :
    ∀ k : Nat, BestInv slots n k ((List.range k).foldl (loop_step slots n) none) := by
  intro k
  induction k with
  | zero =>
    intro i hi
    exact absurd hi (Nat.not_lt_zero i)
  | succ k ih =>
    rw [List.range_succ, List.foldl_append, List.foldl_cons, List.foldl_nil]
    cases hprev : (List.range k).foldl (loop_step slots n) none with
    | none =>
      rw [hprev] at ih
      unfold loop_step
      cases hok : chain30 (window slots k n) with
      | false =>
        simp only [hok, Bool.false_eq_true, if_false]
        intro i hi
        rcases Nat.lt_succ_iff_lt_or_eq.mp hi with hi | rfl
        · exact ih i hi
        · exact hok
      | true =>
        simp only [hok, if_true]
        refine ⟨Nat.lt_succ_self k, hok, rfl, ?_, ?_⟩
        · intro j hj hjok
          rcases Nat.lt_succ_iff_lt_or_eq.mp hj with hj | rfl
          · rw [ih j hj] at hjok
            exact absurd hjok (by simp)
          · exact le_refl _
        · intro j hj hjok
          rw [ih j hj] at hjok
          exact absurd hjok (by simp)
    | some b =>
      rw [hprev] at ih
      obtain ⟨hbk, hbok, hbtot, hbmin, hbstrict⟩ := ih
      unfold loop_step
      cases hok : chain30 (window slots k n) with
      | false =>
        simp only [hok, Bool.false_eq_true, if_false]
        refine ⟨Nat.lt_succ_of_lt hbk, hbok, hbtot, ?_, hbstrict⟩
        intro j hj hjok
        rcases Nat.lt_succ_iff_lt_or_eq.mp hj with hj | rfl
        · exact hbmin j hj hjok
        · rw [hok] at hjok
          exact absurd hjok (by simp)
      | true =>
        simp only [hok, if_true]
        by_cases hlt : window_total slots k n < b.1
        · rw [if_pos hlt]
          refine ⟨Nat.lt_succ_self k, hok, rfl, ?_, ?_⟩
          · intro j hj hjok
            rcases Nat.lt_succ_iff_lt_or_eq.mp hj with hj | rfl
            · exact le_of_lt (lt_of_lt_of_le hlt (hbtot ▸ hbmin j hj hjok))
            · exact le_refl _
          · intro j hj hjok
            exact lt_of_lt_of_le hlt (hbtot ▸ hbmin j hj hjok)
        · rw [if_neg hlt]
          refine ⟨Nat.lt_succ_of_lt hbk, hbok, hbtot, ?_, hbstrict⟩
          intro j hj hjok
          rcases Nat.lt_succ_iff_lt_or_eq.mp hj with hj | rfl
          · exact hbmin j hj hjok
          · exact le_of_not_lt hlt

/-- C1: the block search returns the earliest minimal-sum strictly
contiguous window of n slots, with end = last start + 30 minutes and mean
price = sum / n, and returns nothing exactly when no contiguous run of
length n exists. -/
theorem contiguous_block_cheapest_spec (slots : List RateSlot) (n : Nat)
    (hn : 1 ≤ n) (hsorted : List.Chain' slotLE slots) : BlockSpec slots n := by
  have hinv : BestInv slots n (slots.length - n + 1) (best_loop slots n) :=
    best_loop_inv slots n (slots.length - n + 1)
  by_cases hlen : slots.length < n
  · have heq : _contiguous_block_cheapest slots n = none := by
      unfold _contiguous_block_cheapest
      rw [if_neg (by omega : ¬n = 0), if_pos hlen]
    unfold BlockSpec
    rw [heq]
    intro i hri
    have := hri.1
    omega
  · cases hb : best_loop slots n with
    | none =>
      have heq : _contiguous_block_cheapest slots n = none := by
        unfold _contiguous_block_cheapest
        rw [if_neg (by omega : ¬n = 0), if_neg hlen, hb]
      unfold BlockSpec
      rw [heq]
      intro i hri
      rw [hb] at hinv
      obtain ⟨hle, hch⟩ := hri
      have hik : i < slots.length - n + 1 := by omega
      rw [hinv i hik] at hch
      exact Bool.noConfusion hch
    | some tb =>
      obtain ⟨total, idx⟩ := tb
      rw [hb] at hinv
      obtain ⟨hik, hok, htot, hmin, hstrict⟩ := hinv
      have hrange : idx + n ≤ slots.length := by omega
      cases hw : window slots idx n with
      | nil =>
        exfalso
        have := window_length slots idx n hrange
        rw [hw] at this
        simp at this
        omega
      | cons f t =>
        have heq : _contiguous_block_cheapest slots n =
            some (f.start, ((f :: t).getLast (List.cons_ne_nil f t)).start + 30,
              total / (n : ℚ)) := by
          unfold _contiguous_block_cheapest
          rw [if_neg (by omega : ¬n = 0), if_neg hlen, hb]
          dsimp only
          rw [hw]
        unfold BlockSpec
        rw [heq]
        refine ⟨idx, ⟨hrange, hok⟩, ?_, ?_, ?_, ?_, ?_⟩
        · exact window_head_eq slots idx n f t hw
        · rw [window_last_eq slots idx n f t hrange hw]
        · exact congrArg (· / (n : ℚ)) htot
        · intro j hrj
          have hjk : j < slots.length - n + 1 := by
            have := hrj.1
            omega
          have hm := hmin j hjk hrj.2
          rwa [htot] at hm
        · intro j hj hrj
          have hm := hstrict j hj hrj.2
          rwa [htot] at hm

theorem contiguous_block_cheapest_spec_witness :
    1 ≤ 2 ∧ BlockSpec ex_slots1 2 :=
  ⟨by decide,
    contiguous_block_cheapest_spec ex_slots1 2 (by decide)
      (by simp [ex_slots1, slotLE])⟩

theorem merge_eq_sort_out (confirmed forecast : List RateSlot) :
    _merge_confirmed_over_forecast confirmed forecast =
      List.insertionSort slotLE ((merge_out confirmed forecast).map Prod.snd) := rfl

theorem merge_out_wf (confirmed forecast : List RateSlot) :
    ∀ p ∈ merge_out confirmed forecast, p.1 = p.2.start := by
  unfold merge_out
  exact dict_from_wf _ _ (dict_from_wf forecast [] (by simp))

theorem conf_vals_sub (confirmed : List RateSlot) :
    ∀ v ∈ (dict_from [] confirmed).map Prod.snd, v ∈ confirmed := by
  intro v hv
  obtain ⟨p, hp, rfl⟩ := List.mem_map.mp hv
  rcases dict_from_entry confirmed [] p hp with h | ⟨h, _⟩
  · exact h
  · simp at h

theorem conf_vals_starts (confirmed : List RateSlot) (a : Int) :
    (∃ v ∈ (dict_from [] confirmed).map Prod.snd, v.start = a) ↔
      ∃ s ∈ confirmed, s.start = a := by
  have hwf_c : ∀ p ∈ dict_from ([] : List (Int × RateSlot)) confirmed, p.1 = p.2.start :=
    dict_from_wf confirmed [] (by simp)
  constructor
  · rintro ⟨v, hv, rfl⟩
    exact ⟨v, conf_vals_sub confirmed v hv, rfl⟩
  · rintro ⟨s, hs, rfl⟩
    have hk : s.start ∈ (dict_from ([] : List (Int × RateSlot)) confirmed).map Prod.fst :=
      (dict_from_mem_keys confirmed [] s.start).mpr (Or.inr ⟨s, hs, rfl⟩)
    obtain ⟨p, hp, hpa⟩ := List.mem_map.mp hk
    exact ⟨p.2, List.mem_map.mpr ⟨p, hp, rfl⟩, by rw [← hwf_c p hp]; exact hpa⟩

theorem merge_out_keys (confirmed forecast : List RateSlot) (a : Int) :
    a ∈ (merge_out confirmed forecast).map Prod.fst ↔
      ((∃ s ∈ confirmed, s.start = a) ∨ ∃ s ∈ forecast, s.start = a) := by
  unfold merge_out
  rw [dict_from_mem_keys, dict_from_mem_keys]
  constructor
  · rintro ((h | h) | h)
    · simp at h
    · exact Or.inr h
    · exact Or.inl ((conf_vals_starts confirmed a).mp h)
  · rintro (h | h)
    · exact Or.inr ((conf_vals_starts confirmed a).mpr h)
    · exact Or.inl (Or.inr h)

theorem merge_out_keys_nodup (confirmed forecast : List RateSlot) :
    ((merge_out confirmed forecast).map Prod.fst).Nodup := by
  unfold merge_out
  exact dict_from_keys_nodup _ _ (dict_from_keys_nodup forecast [] (by simp))

/-- C2: the merged sequence covers exactly the union of start timestamps,
is strictly sorted by start (hence unique by start), and on a timestamp
present in the confirmed input the merged slot is a confirmed slot. -/
theorem merge_confirmed_over_forecast_spec (confirmed forecast : List RateSlot) :
    MergeSpec confirmed forecast := by
  have hwf := merge_out_wf confirmed forecast
  have hperm : (_merge_confirmed_over_forecast confirmed forecast).Perm
      ((merge_out confirmed forecast).map Prod.snd) := by
    rw [merge_eq_sort_out]
    exact List.perm_insertionSort slotLE _
  refine ⟨?_, ?_, ?_⟩
  · intro t
    constructor
    · rintro ⟨s, hs, rfl⟩
      have hs2 : s ∈ (merge_out confirmed forecast).map Prod.snd := hperm.subset hs
      obtain ⟨p, hp, rfl⟩ := List.mem_map.mp hs2
      have hk : p.1 ∈ (merge_out confirmed forecast).map Prod.fst :=
        List.mem_map.mpr ⟨p, hp, rfl⟩
      have hu := (merge_out_keys confirmed forecast p.1).mp hk
      rw [hwf p hp] at hu
      exact hu
    · intro h
      have hk : t ∈ (merge_out confirmed forecast).map Prod.fst :=
        (merge_out_keys confirmed forecast t).mpr h
      obtain ⟨p, hp, hpa⟩ := List.mem_map.mp hk
      refine ⟨p.2, hperm.mem_iff.mpr (List.mem_map.mpr ⟨p, hp, rfl⟩), ?_⟩
      rw [← hwf p hp]
      exact hpa
  · have hsorted : List.Sorted slotLE (_merge_confirmed_over_forecast confirmed forecast) := by
      rw [merge_eq_sort_out]
      exact List.sorted_insertionSort slotLE _
    have hnd : ((_merge_confirmed_over_forecast confirmed forecast).map RateSlot.start).Nodup := by
      have h1 : (((merge_out confirmed forecast).map Prod.snd).map RateSlot.start).Nodup := by
        rw [List.map_map]
        show ((merge_out confirmed forecast).map (fun p => p.2.start)).Nodup
        have heq : (merge_out confirmed forecast).map (fun p => p.2.start) =
            (merge_out confirmed forecast).map Prod.fst :=
          List.map_congr_left (fun p hp => (hwf p hp).symm)
        rw [heq]
        exact merge_out_keys_nodup confirmed forecast
      exact ((hperm.map RateSlot.start).nodup_iff).mpr h1
    have hpneq : List.Pairwise (fun a b : RateSlot => a.start ≠ b.start)
        (_merge_confirmed_over_forecast confirmed forecast) := List.pairwise_map.mp hnd
    have hppair : List.Pairwise (fun a b : RateSlot => a.start ≤ b.start)
        (_merge_confirmed_over_forecast confirmed forecast) := hsorted
    exact (hppair.and hpneq).imp (fun h => lt_of_le_of_ne h.1 h.2)
  · intro s hs hc
    have hs2 := hperm.subset hs
    obtain ⟨p, hp, rfl⟩ := List.mem_map.mp hs2
    rcases dict_from_entry _ _ p hp with hv | ⟨_, hne⟩
    · exact conf_vals_sub confirmed _ hv
    · exfalso
      obtain ⟨c0, hc0, hceq⟩ := hc
      have hex : ∃ v ∈ (dict_from [] confirmed).map Prod.snd, v.start = p.1 :=
        (conf_vals_starts confirmed p.1).mpr ⟨c0, hc0, by rw [hceq]; exact (hwf p hp).symm⟩
      obtain ⟨v, hv, hveq⟩ := hex
      exact hne v hv hveq

theorem compute_deadline_plan_status (inputs : PlannerInputs)
    (windows : List (PyDateTime × PyDateTime × PyDateTime))
    (night_slots : List (Int × List RateSlot)) :
    ((_compute_deadline_plan inputs windows night_slots).1.status = "DISABLED" ↔
      (inputs.deadline_enabled = false ∨ inputs.full_by = none ∨
        inputs.deadline_target_soc_pct ≤ 0)) ∧
    ((_compute_deadline_plan inputs windows night_slots).1.status = "DISABLED" ∨
      (_compute_deadline_plan inputs windows night_slots).1.status = "ON_TRACK" ∨
      (_compute_deadline_plan inputs windows night_slots).1.status = "AT_RISK") := by
  unfold _compute_deadline_plan
  match henabled : inputs.deadline_enabled, hfb : inputs.full_by with
  | false, _ => simp
  | true, none => simp
  | true, some fb =>
    dsimp only
    by_cases ht : inputs.deadline_target_soc_pct ≤ 0
    · rw [if_pos ht]
      simp [ht]
    · rw [if_neg ht]
      by_cases hpast : instant fb ≤ instant inputs.now
      · rw [if_pos hpast]
        simp [ht]
      · rw [if_neg hpast]
        split
        · simp [ht]
        · split
          · simp [ht]
          · split
            · simp [ht]
            · split
              · simp [ht]
              · simp [ht]

theorem plan_body_deadline (c f : List RateSlot) (inputs : PlannerInputs) :
    (plan_body c f inputs).deadline =
      (if (_merge_confirmed_over_forecast c f).length = 0
        then ⟨"DISABLED", "Deadline mode disabled."⟩
        else (_compute_deadline_plan inputs (planner_windows inputs)
          (night_slots_of c f inputs)).1) := by
  simp only [plan_body]
  split <;> rfl

/-- C4 counterexample, both directions of the claimed iff: with the switch
enabled, a positive target and a supplied `full_by` that is not strictly in
the future (so the claim's activation conditions fail), the code reports
AT_RISK, not DISABLED; and with every activation condition holding but no
rate data at all, the code reports DISABLED, not ON_TRACK or AT_RISK. -/
theorem deadline_disabled_cx :
    (plan_charging c4_slots [] c4_inputs).toOption.map (fun o => o.deadline.status) =
      some "AT_RISK" ∧
    ("AT_RISK" : String) ≠ "DISABLED" ∧
    c4_inputs.deadline_enabled = true ∧
    c4_inputs.full_by = some ⟨900, some 0⟩ ∧
    instant (⟨900, some 0⟩ : PyDateTime) ≤ instant c4_inputs.now ∧
    0 < c4_inputs.deadline_target_soc_pct ∧
    (plan_charging [] [] c4b_inputs).toOption.map (fun o => o.deadline.status) =
      some "DISABLED" ∧
    c4b_inputs.deadline_enabled = true ∧
    c4b_inputs.full_by = some ⟨4000, some 0⟩ ∧
    instant c4b_inputs.now < instant (⟨4000, some 0⟩ : PyDateTime) ∧
    0 < c4b_inputs.deadline_target_soc_pct :=
  ⟨rfl, by decide, rfl, rfl, by decide, by decide, rfl, rfl, rfl, by decide, by decide⟩

theorem compute_deadline_plan_past (inputs : PlannerInputs)
    (windows : List (PyDateTime × PyDateTime × PyDateTime))
    (night_slots : List (Int × List RateSlot)) (fb : PyDateTime)
    (hfb : inputs.full_by = some fb) (hen : inputs.deadline_enabled = true)
    (ht : 0 < inputs.deadline_target_soc_pct)
    (hpast : instant fb ≤ instant inputs.now) :
    (_compute_deadline_plan inputs windows night_slots).1 =
      ⟨"AT_RISK", "Deadline is in the past or now."⟩ := by
  unfold _compute_deadline_plan
  rw [hen, hfb]
  dsimp only
  rw [if_neg (not_le.mpr ht), if_pos hpast]

/-- C4 amended: the deadline status is DISABLED exactly when the switch is
off, `full_by` is absent, the target SoC is non-positive, or the merged
rate sequence is empty; with non-empty merged rates an activated deadline
whose `full_by` is not strictly in the future always yields AT_RISK with
the past-deadline summary; the status is always one of DISABLED, ON_TRACK,
AT_RISK. -/
theorem deadline_status_amended (c f : List RateSlot) (inputs : PlannerInputs)
    (hnow : _is_tz_aware inputs.now = true)
    (hfb : ∀ fb, inputs.full_by = some fb → _is_tz_aware fb = true) :
    ∃ out, plan_charging c f inputs = Except.ok out ∧
      DeadlineAmendedSpec c f inputs out := by
  refine ⟨plan_body c f inputs, plan_charging_ok c f inputs hnow hfb, ?_, ?_, ?_⟩
  · have hd := plan_body_deadline c f inputs
    by_cases hm : (_merge_confirmed_over_forecast c f).length = 0
    · rw [if_pos hm] at hd
      have hnil : _merge_confirmed_over_forecast c f = [] := List.length_eq_zero.mp hm
      rw [hd]
      simp [hnil]
    · rw [if_neg hm] at hd
      have hlem := compute_deadline_plan_status inputs (planner_windows inputs)
        (night_slots_of c f inputs)
      rw [hd, hlem.1]
      constructor
      · exact fun h => Or.inr h
      · rintro (h | h)
        · exact absurd (by rw [h]; rfl : (_merge_confirmed_over_forecast c f).length = 0) hm
        · exact h
  · intro fb hfb2 hen ht hpast hm2
    have hd := plan_body_deadline c f inputs
    rw [if_neg (by simpa using hm2)] at hd
    rw [hd]
    exact compute_deadline_plan_past inputs (planner_windows inputs)
      (night_slots_of c f inputs) fb hfb2 hen ht hpast
  · have hd := plan_body_deadline c f inputs
    by_cases hm : (_merge_confirmed_over_forecast c f).length = 0
    · rw [if_pos hm] at hd
      left
      rw [hd]
    · rw [if_neg hm] at hd
      rw [hd]
      exact (compute_deadline_plan_status inputs (planner_windows inputs)
        (night_slots_of c f inputs)).2

theorem deadline_status_amended_witness :
    _is_tz_aware c4_inputs.now = true ∧
      ∃ out, plan_charging c4_slots [] c4_inputs = Except.ok out ∧
        DeadlineAmendedSpec c4_slots [] c4_inputs out :=
  ⟨rfl, deadline_status_amended c4_slots [] c4_inputs rfl
    (by intro fb hf; simp [c4_inputs] at hf; rw [← hf]; rfl)⟩

theorem charger_nonpositive_safe_witness :
    c10_inputs.charger_power_kw ≤ 0 ∧
      ∀ e : ℚ, _slots_needed_for_energy c10_inputs e = 0 :=
  ⟨by norm_num [c10_inputs],
    (charger_nonpositive_safe c10_inputs (by norm_num [c10_inputs]) rfl
      (by intro fb hf; simp [c10_inputs] at hf)).2.1⟩

theorem pyOrChain_eq_first_truthy (item : Normalise.Record) :
    ∀ keys : List String, keys ≠ [] →
      Normalise.pyOrChain item keys = Normalise.first_truthy_or_last item keys := by
  intro keys
  induction keys with
  | nil => intro h; exact absurd rfl h
  | cons k rest ih =>
    intro _
    cases rest with
    | nil =>
      unfold Normalise.pyOrChain Normalise.first_truthy_or_last
      cases htr : Normalise.truthy (item.get k) with
      | false => simp [List.find?, htr]
      | true => simp [List.find?, htr]
    | cons k2 rest2 =>
      unfold Normalise.pyOrChain
      cases htr : Normalise.truthy (item.get k) with
      | false =>
        simp only [htr, Bool.false_eq_true, if_false]
        rw [ih (by simp)]
        have hfind : List.find? (fun k0 => Normalise.truthy (item.get k0))
            (k :: k2 :: rest2) =
            List.find? (fun k0 => Normalise.truthy (item.get k0)) (k2 :: rest2) := by
          simp [List.find?_cons, htr]
        have hlast : (k :: k2 :: rest2).getLastD "" = (k2 :: rest2).getLastD "" := by
          rw [List.getLastD_eq_getLast?, List.getLastD_eq_getLast?]
          rfl
        unfold Normalise.first_truthy_or_last
        rw [hfind, hlast]
      | true =>
        simp only [htr, if_true]
        have hfind : List.find? (fun k0 => Normalise.truthy (item.get k0))
            (k :: k2 :: rest2) = some k := by
          simp [List.find?_cons, htr]
        unfold Normalise.first_truthy_or_last
        rw [hfind]

theorem parse_record_eq (iso_parse : String → Option PyDateTime)
    (float_parse : String → Option ℚ) (tz_hint : Option Int)
    (item : Normalise.Record) :
    Normalise.parse_record iso_parse float_parse tz_hint item =
      Normalise.record_to_slot iso_parse float_parse tz_hint item := by
  unfold Normalise.parse_record Normalise.record_to_slot
  rw [pyOrChain_eq_first_truthy item Normalise.datetime_keys (by simp [Normalise.datetime_keys]),
    pyOrChain_eq_first_truthy item Normalise.price_keys (by simp [Normalise.price_keys])]
  cases hdt : Normalise._parse_dt iso_parse
      (Normalise.first_truthy_or_last item Normalise.datetime_keys) with
  | none => rfl
  | some dt0 =>
    dsimp only
    split <;> split
    all_goals try rfl
    all_goals cases Normalise._safe_float float_parse (Normalise.first_truthy_or_last item Normalise.price_keys) <;> rfl

theorem foldl_append_filterMap (g : Normalise.Record → Option Normalise.RateSlot) :
    ∀ (items : List Normalise.Record) (init : List Normalise.RateSlot),
      items.foldl (fun out item =>
        match g item with
        | none => out
        | some r => out ++ [r]) init = init ++ items.filterMap g := by
  intro items
  induction items with
  | nil => intro init; simp
  | cons x xs ih =>
    intro init
    rw [List.foldl_cons]
    cases hg : g x with
    | none =>
      simp only [hg]
      rw [ih init]
      simp [List.filterMap_cons, hg]
    | some r =>
      simp only [hg]
      rw [ih (init ++ [r])]
      simp [List.filterMap_cons, hg]

/-- C7 amended: the normaliser equals, up to the final ascending sort, the
per-record extraction that takes the first truthy value of each key
priority list (falling back to the last key), so one slot per valid record
in that sense, sorted by timestamp and never deduplicated. -/
theorem parse_rates_list_spec (iso_parse : String → Option PyDateTime)
    (float_parse : String → Option ℚ) (items : List Normalise.Record)
    (tz_hint : Option Int) : ParseSpec iso_parse float_parse items tz_hint := by
  have hfun : Normalise.parse_record iso_parse float_parse tz_hint =
      Normalise.record_to_slot iso_parse float_parse tz_hint :=
    funext (parse_record_eq iso_parse float_parse tz_hint)
  have h1 : Normalise.parse_rates_list iso_parse float_parse items tz_hint =
      List.insertionSort Normalise.nslotLE
        (items.filterMap (Normalise.record_to_slot iso_parse float_parse tz_hint)) := by
    unfold Normalise.parse_rates_list
    rw [foldl_append_filterMap (Normalise.parse_record iso_parse float_parse tz_hint) items []]
    rw [List.nil_append, hfun]
  refine ⟨h1, ?_, ?_⟩
  · rw [h1]
    exact List.sorted_insertionSort _ _
  · rw [h1]
    exact List.perm_insertionSort _ _

theorem mapM_eq_some_of_all_isSome (g : Nat → Option ℚ) :
    ∀ l : List Nat, (∀ k ∈ l, (g k).isSome = true) →
      l.mapM g = some (l.map (fun k => (g k).getD 0)) := by
  intro l
  induction l with
  | nil => intro _; rfl
  | cons a l ih =>
    intro h
    obtain ⟨v, hv⟩ := Option.isSome_iff_exists.mp (h a (List.mem_cons_self a l))
    rw [List.mapM_cons, ih (fun k hk => h k (List.mem_cons_of_mem a hk))]
    simp [hv]

theorem mapM_eq_none_of_mem_none (g : Nat → Option ℚ) :
    ∀ (l : List Nat) (k : Nat), k ∈ l → g k = none → l.mapM g = none := by
  intro l
  induction l with
  | nil => intro k hk; exact absurd hk (List.not_mem_nil k)
  | cons a l ih =>
    intro k hk hnone
    rcases List.mem_cons.mp hk with rfl | hk2
    · rw [List.mapM_cons, hnone]
      simp
    · rw [List.mapM_cons, ih k hk2 hnone]
      cases hga : g a <;> simp [hga]

theorem estimate_cost_for_window_spec (merged : List RateSlot) (s e : Int)
    (power : ℚ) : CostSpec merged s e power := by
  refine ⟨?_, ?_, ?_⟩
  · intro h0
    unfold _estimate_cost_for_window
    rw [if_pos h0]
  · intro hall
    by_cases h0 : power = 0
    · unfold _estimate_cost_for_window
      rw [if_pos h0]
      subst h0
      simp
    · unfold _estimate_cost_for_window
      rw [if_neg h0]
      dsimp only
      rw [mapM_eq_some_of_all_isSome _ (List.range ((e - s).toNat / 30)) ?_]
      · dsimp only
        rw [List.map_map]
        rfl
      · intro k hk
        have hp := hall k (List.mem_range.mp hk)
        unfold slot_present at hp
        rcases Option.isSome_iff_exists.mp hp with ⟨v, hv⟩
        rw [hv]
        rfl
  · intro h0 hmiss
    obtain ⟨k, hk, hnone⟩ := hmiss
    unfold _estimate_cost_for_window
    rw [if_neg h0]
    dsimp only
    rw [mapM_eq_none_of_mem_none _ (List.range ((e - s).toNat / 30)) k
      (List.mem_range.mpr hk) ?_]
    unfold slot_present at hnone
    rw [Option.map_eq_none']
    exact Option.not_isSome_iff_eq_none.mp (by rw [hnone]; exact Bool.noConfusion)

/-- C3: for a chosen PLUG_IN window the (spec-modelled) tonight metrics are
the window's half-hour slot count and its estimated cost, where the cost is
the sum over covered half-hour slots of price times charger_power_kw * 0.5,
absent when a slot is missing, 0.0 for zero charger power; with no PLUG_IN
window the metrics are zero and absent; with the three spec examples. -/
theorem tonight_cost_metrics_spec (merged : List RateSlot) (t : TonightPlan)
    (power : ℚ) :
    MetricsSpec merged t power ∧
    _estimate_cost_for_window [⟨1020, 10⟩, ⟨1050, 10⟩] 1020 1080 7 = some 70 ∧
    _estimate_cost_for_window [⟨1020, 10⟩] 1020 1080 7 = none ∧
    _estimate_cost_for_window [⟨1020, 10⟩, ⟨1050, 10⟩] 1020 1080 0 = some 0 := by
  refine ⟨⟨?_, ?_⟩, ?_, ?_, ?_⟩
  · intro s e hstate hs he
    constructor
    · simp [tonight_extra_metrics, cost_window_len, hstate, hs, he]
    · exact estimate_cost_for_window_spec merged s e power
  · intro hstate
    have hbeq : (t.state == "PLUG_IN") = false := by simp [hstate]
    unfold tonight_extra_metrics
    rw [hbeq]
  · have h := (estimate_cost_for_window_spec [⟨1020, 10⟩, ⟨1050, 10⟩] 1020 1080 7).2.1
      (by decide)
    rw [h, show cost_window_len 1020 1080 = 2 from rfl,
      show List.range 2 = [0, 1] from rfl]
    norm_num [show price_at [(⟨1020, 10⟩ : RateSlot), ⟨1050, 10⟩] 1020 = 10 from rfl,
      show price_at [(⟨1020, 10⟩ : RateSlot), ⟨1050, 10⟩] 1050 = 10 from rfl]
  · exact (estimate_cost_for_window_spec [⟨1020, 10⟩] 1020 1080 7).2.2
      (by norm_num) ⟨1, by decide, by decide⟩
  · exact (estimate_cost_for_window_spec [⟨1020, 10⟩, ⟨1050, 10⟩] 1020 1080 0).1 rfl

theorem insertionSort_head_min (l : List OppCand) (h0 : OppCand) (t0 : List OppCand)
    (hs : List.insertionSort oppLE l = h0 :: t0) :
    h0 ∈ l ∧ ∀ x ∈ l, h0.avg ≤ x.avg := by
  have hperm := List.perm_insertionSort oppLE l
  rw [hs] at hperm
  constructor
  · exact hperm.subset (List.mem_cons_self h0 t0)
  · intro x hx
    rcases List.mem_cons.mp (hperm.symm.subset hx) with rfl | hx3
    · exact le_refl _
    · have hsorted := List.sorted_insertionSort oppLE l
      rw [hs] at hsorted
      exact List.rel_of_sorted_cons hsorted x hx3

theorem insertionSort_cons_of_min (cand : OppCand) (l : List OppCand)
    (h : ∀ x ∈ l, cand.avg ≤ x.avg) :
    List.insertionSort oppLE (cand :: l) = cand :: List.insertionSort oppLE l := by
  show List.orderedInsert oppLE cand (List.insertionSort oppLE l) =
    cand :: List.insertionSort oppLE l
  cases hs : List.insertionSort oppLE l with
  | nil => rfl
  | cons y ys =>
    have hy : y ∈ l :=
      (List.perm_insertionSort oppLE l).subset (by rw [hs]; exact List.mem_cons_self y ys)
    exact List.orderedInsert_of_le oppLE _ (h y hy)

theorem opp_candidate_nid (confirmed forecast : List RateSlot)
    (inputs : PlannerInputs) (w : PyDateTime × PyDateTime × PyDateTime)
    (cand : OppCand) (h : opp_candidate confirmed forecast inputs w = some cand) :
    cand.nid = instant w.1 := by
  simp only [opp_candidate] at h
  split at h
  · exact Option.noConfusion h
  · split at h
    · exact Option.noConfusion h
    · have h2 := Option.some.inj h
      rw [← h2]

theorem planner_windows_cons (inputs : PlannerInputs) :
    ∃ ws, planner_windows inputs =
      (dt_add (_night_window_start inputs.now) (1440 * ((0 : Nat) : Int)),
        dt_add (_night_window_start inputs.now) (1440 * ((0 : Nat) : Int)),
        _night_window_end (dt_add (_night_window_start inputs.now) (1440 * ((0 : Nat) : Int)))) :: ws ∧
      ∀ w ∈ ws, instant w.1 ≠ tonight_id_of inputs := by
  refine ⟨([1, 2, 3, 4, 5, 6] : List Nat).map (fun (d : Nat) =>
    (dt_add (_night_window_start inputs.now) (1440 * (d : Int)),
      dt_add (_night_window_start inputs.now) (1440 * (d : Int)),
      _night_window_end (dt_add (_night_window_start inputs.now) (1440 * (d : Int))))), ?_, ?_⟩
  · show _build_night_windows inputs.now 7 = _
    unfold _build_night_windows
    rw [show List.range 7 = [0, 1, 2, 3, 4, 5, 6] from rfl]
    rfl
  · intro w hw
    obtain ⟨d, hd, hgw⟩ := List.mem_map.mp hw
    have hnid : instant w.1 =
        (_night_window_start inputs.now).wall + 1440 * (d : Int) -
          (_night_window_start inputs.now).off.getD 0 := by
      rw [← hgw]
      rfl
    have htid : tonight_id_of inputs =
        (_night_window_start inputs.now).wall + 1440 * ((0 : Nat) : Int) -
          (_night_window_start inputs.now).off.getD 0 := by
      show instant ((_build_night_windows inputs.now 7).headD dummy_window).1 = _
      unfold _build_night_windows
      rw [show List.range 7 = [0, 1, 2, 3, 4, 5, 6] from rfl]
      rfl
    rw [hnid, htid]
    have hd1 : 1 ≤ d := by
      simp at hd
      omega
    intro hcontra
    have : (1440 : Int) * (d : Int) = 1440 * ((0 : Nat) : Int) := by omega
    have : (d : Int) = ((0 : Nat) : Int) := by omega
    have : d = 0 := by exact_mod_cast this
    omega

theorem bbn_tonight_head (c f : List RateSlot) (inputs : PlannerInputs) :
    ∀ cand ∈ best_by_night_of c f inputs, cand.nid = tonight_id_of inputs →
      ∃ rest, best_by_night_of c f inputs = cand :: rest := by
  intro cand hcand hnid
  obtain ⟨ws, hcons, hws⟩ := planner_windows_cons inputs
  have hbbn0 : best_by_night_of c f inputs =
      List.filterMap (opp_candidate c f inputs)
        ((dt_add (_night_window_start inputs.now) (1440 * ((0 : Nat) : Int)),
          dt_add (_night_window_start inputs.now) (1440 * ((0 : Nat) : Int)),
          _night_window_end (dt_add (_night_window_start inputs.now)
            (1440 * ((0 : Nat) : Int)))) :: ws) := by
    unfold best_by_night_of
    rw [hcons]
  rw [List.filterMap_cons] at hbbn0
  cases h0 : opp_candidate c f inputs
      (dt_add (_night_window_start inputs.now) (1440 * ((0 : Nat) : Int)),
        dt_add (_night_window_start inputs.now) (1440 * ((0 : Nat) : Int)),
        _night_window_end (dt_add (_night_window_start inputs.now) (1440 * ((0 : Nat) : Int)))) with
  | none =>
    exfalso
    rw [h0] at hbbn0
    rw [hbbn0] at hcand
    obtain ⟨w, hw, hfw⟩ := List.mem_filterMap.mp hcand
    exact hws w hw ((opp_candidate_nid c f inputs w cand hfw).symm.trans hnid)
  | some c0 =>
    rw [h0] at hbbn0
    rw [hbbn0] at hcand ⊢
    rcases List.mem_cons.mp hcand with rfl | htail
    · exact ⟨_, rfl⟩
    · exfalso
      obtain ⟨w, hw, hfw⟩ := List.mem_filterMap.mp htail
      exact hws w hw ((opp_candidate_nid c f inputs w cand hfw).symm.trans hnid)

theorem plan_body_opportunistic (c f : List RateSlot) (inputs : PlannerInputs)
    (hm : _merge_confirmed_over_forecast c f ≠ [])
    (hblk : blocks_get (blocks_of c f inputs) (tonight_id_of inputs) = none)
    (hts : tonight_slots_of c f inputs ≠ [])
    (hneed : (metrics_of inputs).needed_slots = 0) :
    (plan_body c f inputs).tonight =
      (match List.insertionSort oppLE (best_by_night_of c f inputs) with
        | [] =>
          ⟨"NO_NEED", none, none, 0,
            "Above morning floor; no opportunistic data for next 7 nights."⟩
        | best :: _ =>
          if best.nid = tonight_id_of inputs then
            ⟨"PLUG_IN", some best.s, some best.e, 1,
              "Opportunistic: tonight has the cheapest 1-hour window across next 7 nights."⟩
          else
            ⟨"NO_NEED", none, none, 0,
              "Above morning floor; tonight is not the cheapest 1-hour window in next 7 nights."⟩) := by
  have hm0 : ¬(_merge_confirmed_over_forecast c f).length = 0 := by
    simpa using hm
  unfold blocks_of at hblk
  unfold tonight_slots_of at hts
  have hts0 : ¬(night_slots_get (night_slots_of c f inputs) (tonight_id_of inputs)).isEmpty = true := by
    simpa using hts
  have hneed0 : ¬0 < (metrics_of inputs).needed_slots := by
    rw [hneed]
    omega
  simp only [plan_body]
  rw [if_neg hm0, hblk]
  dsimp only
  rw [if_neg hts0, if_neg hneed0]

/-- C6: with data present, no deadline block tonight, tonight coverage and
zero needed slots, the planner takes the opportunistic branch: PLUG_IN for
exactly one hour at tonight's 2-slot block when tonight achieves the
globally lowest average over the 7 nights, NO_NEED when a block on another
night is strictly cheaper than every tonight block, and NO_NEED with the
no-opportunistic-data reason when no night has a 2-slot block. -/
theorem opportunistic_spec (c f : List RateSlot) (inputs : PlannerInputs)
    (hnow : _is_tz_aware inputs.now = true)
    (hfb : ∀ fb, inputs.full_by = some fb → _is_tz_aware fb = true)
    (hm : _merge_confirmed_over_forecast c f ≠ [])
    (hblk : blocks_get (blocks_of c f inputs) (tonight_id_of inputs) = none)
    (hts : tonight_slots_of c f inputs ≠ [])
    (hneed : (metrics_of inputs).needed_slots = 0) :
    ∃ out, plan_charging c f inputs = Except.ok out ∧
      OppSpec out (best_by_night_of c f inputs) (tonight_id_of inputs) := by
  refine ⟨plan_body c f inputs, plan_charging_ok c f inputs hnow hfb, ?_, ?_, ?_⟩
  · intro hempty
    rw [plan_body_opportunistic c f inputs hm hblk hts hneed, hempty]
    rfl
  · intro cand hcand hnid hmin
    obtain ⟨rest, hrest⟩ := bbn_tonight_head c f inputs cand hcand hnid
    have hminrest : ∀ x ∈ rest, cand.avg ≤ x.avg := by
      intro x hx
      exact hmin x (by rw [hrest]; exact List.mem_cons_of_mem cand hx)
    rw [plan_body_opportunistic c f inputs hm hblk hts hneed, hrest,
      insertionSort_cons_of_min cand rest hminrest]
    dsimp only
    rw [if_pos hnid]
  · rintro ⟨cand, hcand, hnid, hcheap⟩
    cases hsort : List.insertionSort oppLE (best_by_night_of c f inputs) with
    | nil =>
      exfalso
      have hperm := List.perm_insertionSort oppLE (best_by_night_of c f inputs)
      rw [hsort] at hperm
      have hnil := List.Perm.eq_nil hperm.symm
      rw [hnil] at hcand
      exact List.not_mem_nil cand hcand
    | cons h0 t0 =>
      obtain ⟨hmem, hminall⟩ := insertionSort_head_min _ h0 t0 hsort
      have hne : ¬h0.nid = tonight_id_of inputs := by
        intro heq
        exact absurd (hminall cand hcand)
          (not_le.mpr (hcheap h0 hmem heq))
      rw [plan_body_opportunistic c f inputs hm hblk hts hneed, hsort]
      dsimp only
      rw [if_neg hne]

theorem opportunistic_spec_witness :
    (metrics_of c6_inputs).needed_slots = 0 ∧
      ∃ out, plan_charging [] c6_slots c6_inputs = Except.ok out ∧
        OppSpec out (best_by_night_of [] c6_slots c6_inputs) (tonight_id_of c6_inputs) := by
  have h1 : _needed_charge_soc_pct_for_tomorrow c6_inputs = 0 := by
    unfold _needed_charge_soc_pct_for_tomorrow _required_soc_for_tomorrow
      _projected_soc_tomorrow_morning
    norm_num [c6_inputs, max_def]
  have h2 : _needed_energy_kwh c6_inputs (_needed_charge_soc_pct_for_tomorrow c6_inputs) = 0 := by
    rw [h1]
    unfold _needed_energy_kwh _energy_kwh_from_soc_pct
    norm_num
  have h3 : (metrics_of c6_inputs).needed_slots = 0 := by
    show _slots_needed_for_energy c6_inputs
      (_needed_energy_kwh c6_inputs (_needed_charge_soc_pct_for_tomorrow c6_inputs)) = 0
    unfold _slots_needed_for_energy
    rw [h2]
    have h4 : _hours_needed_for_energy c6_inputs 0 DEFAULT_CHARGING_EFFICIENCY = 0 := by
      unfold _hours_needed_for_energy
      norm_num [c6_inputs]
    rw [h4]
    unfold _ceil_slots
    rw [if_pos le_rfl]
  exact ⟨h3, opportunistic_spec [] c6_slots c6_inputs rfl
    (by intro fb hf; simp [c6_inputs] at hf) (by decide) rfl (by decide) h3⟩

/-- C7 counterexample: a record holding a parseable timestamp under the
recognised key `start` and the parseable numeric price 0.0 under the
recognised key `price` is dropped (0.0 is falsy in the Python or-chain),
while the claim demands exactly one emitted slot. -/
theorem parse_rates_list_cx :
    Normalise.parse_rates_list iso_none float_none [c7_record] none = [] ∧
    Normalise._parse_dt iso_none (Normalise.Record.get c7_record "start") =
      some ⟨0, some 0⟩ ∧
    Normalise._safe_float float_none (Normalise.Record.get c7_record "price") =
      some 0 ∧
    "start" ∈ Normalise.datetime_keys ∧ "price" ∈ Normalise.price_keys :=
  ⟨rfl, rfl, rfl, by decide, by decide⟩

end EVPlanner
